import Mathlib

/-! go-utils: framing primitives, the unique-id list, the socket client and server,
the logger, the validators and the random helpers.

A shallow embedding of

* `connection/def.go`: `DefaultDelimiter`, `AppendDelimeter`, `TruncateDelimeter`,
  `Message`, `Event`, `EventsToChannel` with its three handler methods;
* `logger/logger.go`: the levels, `formatLog`, `logMessage`, `SetLogLevel`, `Fine`,
  `Debug`, `Info`, `Warn`, `Error`;
* `ui/validators.go`: `ValidateParseTcpUdpPort`, `ValidateTcpUdpPort`,
  `ValidateIPv4SubnetMask`;
* `crypto/random.go`: `RandInt64`, `RandInt32`, `RandInt16`, `RandInt8`,
  `RandCharacters`, `RandString`;
* `containers/unique_id_list.go`: `Item`, `List` (here `IdList`), `NewList`,
  `AddOrUpdate`, `Get`, `GetIds`, `Exist`, `Delete`, `Reset`;
* `connection/socket/server.go`: `Server.Send`, `Server.Broadcast`,
  `Server.ListenAndServe`, `Server.Stop` (with `getConnFromId`), `Server.listenUdp`,
  `Server.clientHandler`;
* `connection/socket/client.go`: `NewClient`, `Client.Connect`, `Client.Send`,
  `Client.Disconnect`, `Client.reader`.

Conventions.  A Go `[]byte` is a `List Byte` (its contents; capacity and
aliasing are not modelled).  Go `int` values (ids, indices) are `Int`; no
arithmetic on them can overflow in the code embedded here.  A Go `any` that may be
`nil` is an `Option`: `none` is the nil interface value.  A Go `error` is an
`Option Error`, `none` being `nil`.  A runtime failure (slice bound out of range,
failed type assertion, call through a nil interface) is the `none` of an outer
`Option`.  The mutex of the list is not modelled: calls run one after the other,
except in `addOrUpdateCommit` and `deleteCommit`, which are the second
lock-protected sections of `AddOrUpdate` and `Delete` and can be run after other
calls have changed the list.  A goroutine is a function of what its blocking reads
return; the flags `interrupted` are read as they are when the goroutine starts.
-/

set_option autoImplicit false

/-! ## Definitions -/

/-- A byte, the element type of Go `[]byte`. -/
abbrev Byte := Fin 256

namespace connection

/-- Source: `const DefaultDelimiter = 0x00`. -/
def DefaultDelimiter : Byte := 0x00

/-- Source: `func AppendDelimeter(raw []byte) []byte { return append(raw, DefaultDelimiter) }`. -/
def AppendDelimeter (raw : List Byte) : List Byte :=
  raw ++ [DefaultDelimiter]

/-- Source: `func TruncateDelimeter(raw []byte) []byte { return raw[:len(raw)-1] }`.
For an empty `raw` the slice bound is `-1` and Go fails at runtime: `none`. -/
def TruncateDelimeter (raw : List Byte) : Option (List Byte) :=
  if (raw.length : Int) - 1 < 0 then none
  else some (raw.take ((raw.length : Int) - 1).toNat)

/-- Source: `type Protocol string`. -/
abbrev Protocol := String

/-- Source: `Tcp Protocol = "tcp"`. -/
def Tcp : Protocol := "tcp"
/-- Source: `Udp Protocol = "udp"`. -/
def Udp : Protocol := "udp"
/-- Source: `Tls Protocol = "tls"`. -/
def Tls : Protocol := "tls"
/-- Source: `Unix Protocol = "unix"`. -/
def Unix : Protocol := "unix"

end connection

namespace containers

/-- Source: `type Item struct { id int; item any }`.  The `any` may be nil. -/
structure Item (α : Type) where
  id : Int
  item : Option α
  deriving DecidableEq, Repr

/-- Source: `type List struct { items []Item; lock sync.Mutex }` (named `IdList`
here, `List` being taken). -/
structure IdList (α : Type) where
  items : List (Item α)
  deriving DecidableEq, Repr

/-- Source: `func NewList() *List`. -/
def NewList {α : Type} : IdList α :=
  { items := [] }

/-- The `for i, content := range l.items` loop of `Get`, started at index `i`:
returns at the first element whose id matches, and `(-1, nil)` when the range
is exhausted. -/
def getLoop {α : Type} (id : Int) : List (Item α) → Int → Int × Option α
  | [], _ => (-1, none)
  | content :: rest, i =>
    if content.id = id then (i, content.item) else getLoop id rest (i + 1)

/-- Source: `func (l *List) Get(id int) (index int, item any)`. -/
def IdList.Get {α : Type} (l : IdList α) (id : Int) : Int × Option α :=
  getLoop id l.items 0

/-- Source: `func (l *List) AddOrUpdate(id int, item any)`.  The assignment
`l.items[index].item = item` replaces the `item` field of the element at `index`
(an index returned by `Get`, hence in range). -/
def IdList.AddOrUpdate {α : Type} (l : IdList α) (id : Int) (item : Option α) : IdList α :=
  let index := (l.Get id).1
  if index ≥ 0 then
    { items := l.items.modify (fun e => { e with item := item }) index.toNat }
  else
    { items := l.items ++ [{ id := id, item := item }] }

/-- Source: `func (l *List) GetIds() (ids []int)`. -/
def IdList.GetIds {α : Type} (l : IdList α) : List Int :=
  l.items.map (fun item => item.id)

/-- Source: `func (l *List) Exist(id int) bool`. -/
def IdList.Exist {α : Type} (l : IdList α) (id : Int) : Bool :=
  if (l.Get id).1 < 0 then false else true

/-- Source: `func (l *List) Delete(id int) any`: the new state and the returned
handle.  `l.items[index] = l.items[len(l.items)-1]` followed by
`l.items = l.items[:len(l.items)-1]`.  With `index >= 0` the slice is non-empty,
so the last element exists; the `none` branch of the match is never taken. -/
def IdList.Delete {α : Type} (l : IdList α) (id : Int) : IdList α × Option α :=
  let (index, oldItem) := l.Get id
  if index < 0 then (l, oldItem)
  else
    match l.items[l.items.length - 1]? with
    | some last =>
      ({ items := (l.items.set index.toNat last).take (l.items.length - 1) }, oldItem)
    | none => (l, oldItem)

/-- Source: `func (l *List) Reset()`. -/
def IdList.Reset {α : Type} (_l : IdList α) : IdList α :=
  { items := [] }

/-- The second critical section of `AddOrUpdate` (from `l.lock.Lock()` to the end),
run with the `index` the first one (`l.Get(id)`, which takes and releases the lock
itself) has returned.  Another goroutine may have changed the list in between;
`none` is Go's failure on `l.items[index]` with `index` out of range. -/
def IdList.addOrUpdateCommit {α : Type} (l : IdList α) (index : Int) (id : Int)
    (item : Option α) : Option (IdList α) :=
  if index ≥ 0 then
    if index.toNat < l.items.length then
      some { items := l.items.modify (fun e => { e with item := item }) index.toNat }
    else none
  else
    some { items := l.items ++ [{ id := id, item := item }] }

/-- The second critical section of `Delete` (from `l.lock.Lock()` to the end), run
with the `index >= 0` the first one (`l.Get(id)`) has returned.  `none` is Go's
failure on `l.items[index]` or `l.items[len(l.items)-1]` out of range. -/
def IdList.deleteCommit {α : Type} (l : IdList α) (index : Int) : Option (IdList α) :=
  match l.items[l.items.length - 1]? with
  | none => none
  | some last =>
    if index.toNat < l.items.length then
      some { items := (l.items.set index.toNat last).take (l.items.length - 1) }
    else none

/-- One call on the list, as a caller can make it. -/
inductive Op (α : Type) where
  | addOrUpdate (id : Int) (item : Option α)
  | delete (id : Int)
  | reset
  | get (id : Int)
  | getIds
  | exist (id : Int)
  deriving DecidableEq, Repr

/-- The state after one call; `Get`, `GetIds` and `Exist` only read. -/
def Op.run {α : Type} : Op α → IdList α → IdList α
  | .addOrUpdate id item, l => l.AddOrUpdate id item
  | .delete id, l => (l.Delete id).1
  | .reset, l => l.Reset
  | .get _, l => l
  | .getIds, l => l
  | .exist _, l => l

/-- The state after a finite sequence of calls, executed in order. -/
def runOps {α : Type} (ops : List (Op α)) (l : IdList α) : IdList α :=
  ops.foldl (fun st op => op.run st) l

/-- A state is reachable when some sequence of calls leads to it from `NewList`. -/
def Reachable {α : Type} (l : IdList α) : Prop :=
  ∃ ops : List (Op α), runOps ops NewList = l

end containers

namespace socket

open connection containers

/-- A Go `error` value, identified by its message; `nil` is `none : Option Error`. -/
abbrev Error := String

/-- What the server stores in its list: a `net.Conn` (stream protocols) or a
`net.Addr` (the source address of a datagram), each identified by a number.  The
two constructors are the two dynamic types the type assertions of `Send` test. -/
inductive Handle where
  | conn (c : Nat)
  | addr (a : Nat)
  deriving DecidableEq, Repr

/-- The goroutines the client and the server start with `go`. -/
inductive Worker where
  | reader
  | listenTcp
  | listenUdp
  | clientHandler (id : Int)
  deriving DecidableEq, Repr

/-- What the client or the server does to the outside: a write
(`conn.Write(data)` for a `conn` handle, `s.udpListener.WriteTo(data, addr)` for an
`addr` handle) with the error it returned; the calls of the three
`connection.Handler` methods; `Close()` on a connection, on `s.listener` and on
`s.udpListener`; a call of `net.Listen`, `tls.Listen`, `net.ListenUDP` or
`net.ListenUnix` with the error it returned; a `go` statement. -/
inductive Effect where
  | write (target : Handle) (data : List Byte) (err : Option Error)
  | connected (id : Int)
  | received (id : Int) (message : List Byte)
  | disconnected (id : Int)
  | connClose (c : Nat)
  | listenerClose
  | udpClose
  | bind (proto : Protocol) (err : Option Error)
  | spawn (w : Worker)
  deriving DecidableEq, Repr

/-- The transport: the error (or `nil`) a write returns, which may depend on
everything that happened before. -/
structure Env where
  write : List Effect → Handle → List Byte → Option Error

/-- Source: `type Server struct`.  `listener` and `udpListener` record whether the
field is non-nil.  `trace` is not a field of the Go struct: it records the effects
the server has had so far, in order.  `wg`, `host`, `port`, `tlsConfig` play no
part in the functions embedded here; `handler` is the sink of the three handler
effects. -/
structure Server where
  proto : Protocol
  interrupted : Bool
  listener : Bool
  udpListener : Bool
  clients : IdList Handle
  trace : List Effect
  deriving DecidableEq, Repr

/-- Source: `func NewServer(host, port, handler, protocol) *Server`. -/
def NewServer (protocol : Protocol) : Server :=
  { proto := protocol, interrupted := false, listener := false, udpListener := false,
    clients := NewList, trace := [] }

/-- Source: `func (s *Server) Send(id int, msg []byte) (err error)`.  The outer
`Option` is `none` when Go fails at runtime: a type assertion `item.(net.Conn)` or
`item.(net.Addr)` on a handle of the other type, or `WriteTo` on a nil
`udpListener`.  When no `case` of the `switch` matches, `err` is still `nil`. -/
def Server.Send (env : Env) (s : Server) (id : Int) (msg : List Byte) :
    Option (Server × Option Error) :=
  match (s.clients.Get id).2 with
  | none => some (s, some "no connection with given id")
  | some item =>
    if s.proto = Tcp ∨ s.proto = Tls ∨ s.proto = Unix then
      match item with
      | .conn c =>
        let err := env.write s.trace (.conn c) (AppendDelimeter msg)
        some ({ s with trace := s.trace ++ [.write (.conn c) (AppendDelimeter msg) err] }, err)
      | .addr _ => none
    else if s.proto = Udp then
      match item with
      | .addr a =>
        if s.udpListener then
          let err := env.write s.trace (.addr a) (AppendDelimeter msg)
          let s1 := { s with trace := s.trace ++ [.write (.addr a) (AppendDelimeter msg) err] }
          match err with
          | some e =>
            some ({ s1 with clients := (s1.clients.Delete id).1,
                            trace := s1.trace ++ [.disconnected id] }, some e)
          | none => some (s1, none)
        else none
      | .conn _ => none
    else some (s, none)

/-- The `for _, id := range cIds` loop of `Broadcast`: returns at the first send
whose error is not `nil`. -/
def broadcastLoop (env : Env) (msg : List Byte) : List Int → Server →
    Option (Server × Option Error)
  | [], s => some (s, none)
  | id :: rest, s =>
    match s.Send env id msg with
    | none => none
    | some (s1, some e) => some (s1, some e)
    | some (s1, none) => broadcastLoop env msg rest s1

/-- Source: `func (s *Server) Broadcast(msg []byte) (err error)`: the ids are
read once, before the loop. -/
def Server.Broadcast (env : Env) (s : Server) (msg : List Byte) :
    Option (Server × Option Error) :=
  broadcastLoop env msg s.clients.GetIds s

/-- The handle a stream server stores: `listenTcp` runs for Tcp, Tls and Unix
only and registers the accepted `net.Conn`; `listenUdp` runs for Udp only, on a
non-nil `udpListener`, and registers the source `net.Addr`. -/
def Server.handleOk (s : Server) (c : Item Handle) : Bool :=
  match c.item with
  | some (.conn _) => decide (s.proto = Tcp ∨ s.proto = Tls ∨ s.proto = Unix)
  | some (.addr _) => decide (s.proto = Udp) && s.udpListener
  | none => false

/-- The invariant of the server over its list: ids pairwise distinct (the list is
only changed through its own methods) and every handle of the type the listening
loop of the protocol registers. -/
def Server.WF (s : Server) : Prop :=
  s.clients.GetIds.Nodup ∧ s.clients.items.all s.handleOk = true

/-- Source: the body of the `listenTcp` loop after a successful `Accept`, with the
server not interrupted: `s.clients.AddOrUpdate(id, conn)`.  (The handler goroutine
it spawns is not part of this step.) -/
def Server.registerConn (s : Server) (id : Int) (c : Nat) : Server :=
  { s with clients := s.clients.AddOrUpdate id (some (.conn c)) }

/-- Source: the `s.clients.AddOrUpdate(id, addr)` of the `listenUdp` loop after a
successful `ReadFrom`. -/
def Server.registerAddr (s : Server) (id : Int) (a : Nat) : Server :=
  { s with clients := s.clients.AddOrUpdate id (some (.addr a)) }

instance (s : Server) : Decidable s.WF := by
  unfold Server.WF
  infer_instance

/-- A transport on which every write to connection `2` fails with "use of closed
network connection" and every other write succeeds. -/
def secondClosed : Env :=
  { write := fun _ target _ =>
      if target = .conn 2 then some "use of closed network connection" else none }

/-- A TCP server that accepted three connections, registered under ids 11, 12, 13. -/
def threePeers : Server :=
  (((NewServer Tcp).registerConn 11 1).registerConn 12 2).registerConn 13 3

/-- How a loop of a goroutine ends: it returned (`done`), or it failed at runtime
(`failed`); in both cases with the state reached, deferred calls included. -/
inductive Outcome (σ : Type) where
  | done (s : σ)
  | failed (s : σ)
  deriving DecidableEq, Repr

/-- The read loop shared by `Client.reader` and `Server.clientHandler`, over the
frames `bufReader.ReadBytes(connection.DefaultDelimiter)` returns with a nil error,
the read after the last of them returning an error.  Per frame:
`msg = connection.TruncateDelimeter(msg)`, then the argument
`string(msg[:len(msg)-1])` of `log.Fine` is evaluated (a second slice, which fails
when the truncated `msg` is empty), then `Received(id, msg)`. -/
def frameLoop (id : Int) : List (List Byte) → List Effect → Outcome (List Effect)
  | [], t => .done t
  | frame :: rest, t =>
    match TruncateDelimeter frame with
    | none => .failed t
    | some msg =>
      if (msg.length : Int) - 1 < 0 then .failed t
      else frameLoop id rest (t ++ [.received id msg])

/-- The value of a non-nil `net.Conn` interface in the field `c.conn`: a pointer to
a connection, or the nil pointer that `net.DialTCP`, `net.DialUDP`, `net.DialUnix`
and `tls.Dial` return together with their error.  Stored in the interface, the nil
pointer makes the interface non-nil; a method called through it (`Write`, `Read`,
`Close`) fails at runtime. -/
inductive Conn where
  | nilPointer
  | live (c : Nat)
  deriving DecidableEq, Repr

/-- Source: `type Client struct`.  `conn` is `none` when the field is the nil
interface.  `trace` is not a field of the Go struct (see `Server`). -/
structure Client where
  proto : Protocol
  conn : Option Conn
  connected : Bool
  interrupted : Bool
  trace : List Effect
  deriving DecidableEq, Repr

/-- Source: `func NewClient(host, port, handler, protocol) *Client`. -/
def NewClient (protocol : Protocol) : Client :=
  { proto := protocol, conn := none, connected := false, interrupted := false, trace := [] }

/-- Source: `func (c *Client) Connect() (err error)`.  `dialConn`, `dialErr` are
what the dial function of the protocol (`dailTcp`, `dailUdp`, `dailTls`,
`dailUnix`) returns: `(none, some e)` when the address resolution fails
(`return nil, err`), `(some .nilPointer, some e)` when the dial itself fails, and
`(some (.live n), none)` when it succeeds.  `c.conn` is assigned in all three
cases; with an unknown protocol it is not assigned. -/
def Client.Connect (c : Client) (dialConn : Option Conn) (dialErr : Option Error) :
    Client × Option Error :=
  if c.proto = Tcp ∨ c.proto = Udp ∨ c.proto = Tls ∨ c.proto = Unix then
    match dialErr, dialConn with
    | some e, _ => ({ c with interrupted := false, conn := dialConn }, some e)
    | none, none => ({ c with interrupted := false, conn := dialConn }, some "connection nil")
    | none, some _ =>
      ({ c with interrupted := false, conn := dialConn, connected := true,
                trace := c.trace ++ [.spawn .reader] }, none)
  else ({ c with interrupted := false }, some "unknown protocol")

/-- Source: `func (c *Client) Send(msg []byte) error`.  The test `c.conn == nil`
is true for the nil interface only; with the nil pointer of a failed dial in
`c.conn` the call `c.conn.Write` fails at runtime (`none`). -/
def Client.Send (env : Env) (c : Client) (msg : List Byte) :
    Option (Client × Option Error) :=
  match c.conn with
  | none => some (c, some "not connected")
  | some .nilPointer => none
  | some (.live n) =>
    let err := env.write c.trace (.conn n) (AppendDelimeter msg)
    some ({ c with trace := c.trace ++ [.write (.conn n) (AppendDelimeter msg) err] }, err)

/-- Source: `func (c *Client) Disconnect() (err error)`, up to the deferred
`c.wg.Wait()`, which waits for `reader` to return.  `closeErr` is what
`c.conn.Close()` returns; with a nil `c.conn`, or the nil pointer of a failed dial
in it, the call fails at runtime. -/
def Client.Disconnect (c : Client) (closeErr : Option Error) :
    Option (Client × Option Error) :=
  match c.conn with
  | none => none
  | some .nilPointer => none
  | some (.live n) =>
    some ({ c with interrupted := true, trace := c.trace ++ [.connClose n] }, closeErr)

/-- Source: `func (c *Client) reader(wg *sync.WaitGroup)`.  The deferred calls run
in reverse order, `c.handler.Disconnected(1)` then `c.conn.Close()`, also when the
loop fails; `c.connected = false` is reached only when the loop ends normally.
`c.interrupted` is read as it is on entry.  With the nil pointer in `c.conn` the
first read, or else the deferred `c.conn.Close()`, fails at runtime. -/
def Client.reader (c : Client) (frames : List (List Byte)) : Outcome Client :=
  match c.conn with
  | none => .failed c
  | some .nilPointer =>
    if c.interrupted then
      .failed { c with connected := false,
                       trace := c.trace ++ [.connected 1, .disconnected 1] }
    else .failed { c with trace := c.trace ++ [.connected 1, .disconnected 1] }
  | some (.live n) =>
    match (if c.interrupted then Outcome.done (c.trace ++ [.connected 1])
           else frameLoop 1 frames (c.trace ++ [.connected 1])) with
    | .done t =>
      .done { c with connected := false, trace := t ++ [.disconnected 1, .connClose n] }
    | .failed t =>
      .failed { c with trace := t ++ [.disconnected 1, .connClose n] }

/-- Source: `func (s *Server) clientHandler(wg, client net.Conn, id int)`.  The
deferred calls run in reverse order, `s.handler.Disconnected(id)` then
`client.Close()`, also when the loop fails. -/
def Server.clientHandler (s : Server) (client : Nat) (id : Int)
    (frames : List (List Byte)) : Outcome Server :=
  match (if s.interrupted then Outcome.done (s.trace ++ [.connected id])
         else frameLoop id frames (s.trace ++ [.connected id])) with
  | .done t => .done { s with trace := t ++ [.disconnected id, .connClose client] }
  | .failed t => .failed { s with trace := t ++ [.disconnected id, .connClose client] }

/-- The body of the `listenUdp` loop, over the datagrams `ReadFrom(buffer)` returns
with a nil error (derived id, source address, bytes sent), the read after the last
of them returning an error.  The buffer has 1024 bytes, so `n` is at most 1024 and
`buffer[:n-1]` holds the first `n-1` bytes of the datagram; with `n = 0` the slice
bound is `-1` and Go fails at runtime, after `Connected(id)`. -/
def listenUdpLoop : List (Int × Nat × List Byte) → Server → Outcome Server
  | [], s => .done s
  | (id, a, datagram) :: rest, s =>
    let n : Int := (min datagram.length 1024 : Nat)
    let s1 := s.registerAddr id a
    let s2 := { s1 with trace := s1.trace ++ [.connected id] }
    if n - 1 < 0 then .failed s2
    else listenUdpLoop rest
      { s2 with trace := s2.trace ++ [.received id (datagram.take (n - 1).toNat)] }

/-- Source: `func (s *Server) listenUdp(wg *sync.WaitGroup)`.  `s.interrupted` is
read as it is on entry; `ReadFrom` on a nil `s.udpListener` fails at runtime. -/
def Server.listenUdp (s : Server) (reads : List (Int × Nat × List Byte)) : Outcome Server :=
  if s.interrupted then .done s
  else if s.udpListener then listenUdpLoop reads s
  else .failed s

/-- Source: `func (s *Server) ListenAndServe() (err error)`.  `resolveErr` is what
`GetUdpAddress` / `GetUnixAddress` returns, `bindErr` what the listen call returns.
`net.Listen` and `tls.Listen` return a nil interface on failure; `net.ListenUDP` and
`net.ListenUnix` return a nil pointer, which stored in the interface field makes
the field non-nil. -/
def Server.ListenAndServe (s : Server) (resolveErr bindErr : Option Error) :
    Server × Option Error :=
  let s0 := { s with interrupted := false }
  if s0.listener then (s0, some "listener already up")
  else if s0.proto = Tcp ∨ s0.proto = Tls then
    let s1 := { s0 with listener := bindErr.isNone,
                        trace := s0.trace ++ [.bind s0.proto bindErr] }
    match bindErr with
    | some e => (s1, some e)
    | none => ({ s1 with trace := s1.trace ++ [.spawn .listenTcp] }, none)
  else if s0.proto = Udp then
    match resolveErr with
    | some e => (s0, some e)
    | none =>
      let s1 := { s0 with udpListener := true, trace := s0.trace ++ [.bind s0.proto bindErr] }
      match bindErr with
      | some e => (s1, some e)
      | none => ({ s1 with trace := s1.trace ++ [.spawn .listenUdp] }, none)
  else if s0.proto = Unix then
    match resolveErr with
    | some e => (s0, some e)
    | none =>
      let s1 := { s0 with listener := true, trace := s0.trace ++ [.bind s0.proto bindErr] }
      match bindErr with
      | some e => (s1, some e)
      | none => ({ s1 with trace := s1.trace ++ [.spawn .listenTcp] }, none)
  else (s0, some ("unknown protocol: " ++ s0.proto))

/-- The `for _, id := range cIds` loop of `Stop`, with `getConnFromId` inlined:
for an id without handle `err` is not nil and `conn.Close()` is called on the nil
`conn`, which fails at runtime; for an id with a connection `err` is nil and
nothing is called; the type assertion `connIf.(net.Conn)` fails on an address. -/
def stopLoop : List Int → Server → Option Server
  | [], s => some s
  | id :: rest, s =>
    match (s.clients.Get id).2 with
    | none => none
    | some (.conn _) => stopLoop rest s
    | some (.addr _) => none

/-- Source: `func (s *Server) Stop()`, up to the deferred `s.wg.Wait()`.  `Close`
on a nil `s.listener` or `s.udpListener` fails at runtime. -/
def Server.Stop (s : Server) : Option Server :=
  let s0 := { s with interrupted := true }
  let afterStream : Option Server :=
    if s0.proto = Tcp ∨ s0.proto = Tls ∨ s0.proto = Unix then
      if s0.listener then
        stopLoop s0.clients.GetIds { s0 with trace := s0.trace ++ [.listenerClose] }
      else none
    else some s0
  match afterStream with
  | none => none
  | some s1 =>
    if s1.proto = Udp then
      if s1.udpListener then
        some { s1 with trace := s1.trace ++ [.udpClose], clients := s1.clients.Reset }
      else none
    else some { s1 with clients := s1.clients.Reset }

/-- A TCP client after a successful `Connect` that dialled connection `2`. -/
def dialled : Client :=
  ((NewClient Tcp).Connect (some (.live 2)) none).1

/-- A TCP client after a `Connect` whose dial failed: `net.DialTCP` returned a nil
pointer and the error, and `Connect` returned the error. -/
def refused : Client :=
  ((NewClient Tcp).Connect (some .nilPointer) (some "connection refused")).1

/-- A UDP server after a first successful `ListenAndServe`. -/
def udpUp : Server :=
  ((NewServer Udp).ListenAndServe none none).1

/-- A TCP server after a successful `ListenAndServe` that accepted three
connections, registered under ids 11, 12, 13. -/
def listeningPeers : Server :=
  ((((NewServer Tcp).ListenAndServe none none).1.registerConn 11 1).registerConn 12 2).registerConn
    13 3

/-- A UDP server that is listening and has seen datagrams from two sources,
registered under ids 21 and 22. -/
def udpPeers : Server :=
  (udpUp.registerAddr 21 1).registerAddr 22 2

/-- A transport on which every write to address `1` fails with "network is
unreachable" and every other write succeeds. -/
def firstUnreachable : Env :=
  { write := fun _ target _ =>
      if target = .addr 1 then some "network is unreachable" else none }

end socket

namespace connection

/-- Source: `type Message struct { Id int; Content []byte }`. -/
structure Message where
  Id : Int
  Content : List Byte
  deriving DecidableEq, Repr

/-- Source: `type EventType int`. -/
abbrev EventType := Int

/-- Source: `DISCONNECTED EventType = 0`. -/
def DISCONNECTED : EventType := 0
/-- Source: `CONNECTED EventType = 1`. -/
def CONNECTED : EventType := 1
/-- Source: `ERROR EventType = -1`. -/
def ERROR : EventType := -1

/-- Source: `type Event struct { Id int; EventType }`. -/
structure Event where
  Id : Int
  EventType : connection.EventType
  deriving DecidableEq, Repr

/-- Source: `type EventsToChannel struct`.  A channel field is `none` when it is
nil, and otherwise the values sent on it so far, oldest first (a send is taken to
complete; closed channels are not modelled).  `logCalls` is not a field of the Go
struct: it records the calls of `log.Fine` and `log.Warn`, as function name and
format string. -/
structure EventsToChannel where
  messageChannel : Option (List Message)
  eventChannel : Option (List Event)
  logCalls : List (String × String)
  deriving DecidableEq, Repr

/-- Source: `func NewEventsToChannel(messageChannel, eventChannel) *EventsToChannel`. -/
def NewEventsToChannel (messageChannel : Option (List Message))
    (eventChannel : Option (List Event)) : EventsToChannel :=
  { messageChannel := messageChannel, eventChannel := eventChannel, logCalls := [] }

/-- Source: `func (e2c *EventsToChannel) Connected(id int)`. -/
def EventsToChannel.Connected (e2c : EventsToChannel) (id : Int) : EventsToChannel :=
  let e1 := { e2c with logCalls := e2c.logCalls ++ [("Fine", "connected called with id %d")] }
  match e1.eventChannel with
  | some q => { e1 with eventChannel := some (q ++ [{ Id := id, EventType := CONNECTED }]) }
  | none => { e1 with logCalls := e1.logCalls ++ [("Warn", "event channel is nil")] }

/-- Source: `func (e2c *EventsToChannel) Received(id int, message []byte)`. -/
def EventsToChannel.Received (e2c : EventsToChannel) (id : Int) (message : List Byte) :
    EventsToChannel :=
  let e1 := { e2c with logCalls := e2c.logCalls ++ [("Fine", "rx called with id %d, %v")] }
  match e1.messageChannel with
  | some q => { e1 with messageChannel := some (q ++ [{ Id := id, Content := message }]) }
  | none => { e1 with logCalls := e1.logCalls ++ [("Warn", "message channel is nil")] }

/-- Source: `func (e2c *EventsToChannel) Disconnected(id int)`. -/
def EventsToChannel.Disconnected (e2c : EventsToChannel) (id : Int) : EventsToChannel :=
  let e1 := { e2c with logCalls := e2c.logCalls ++ [("Fine", "disconnected called with id %d")] }
  match e1.eventChannel with
  | some q => { e1 with eventChannel := some (q ++ [{ Id := id, EventType := DISCONNECTED }]) }
  | none => { e1 with logCalls := e1.logCalls ++ [("Warn", "event channel is nil")] }

end connection

namespace logger

/-- Source: `type LogLevel int`. -/
abbrev LogLevel := Int

/-- Source: `LevelFine LogLevel = iota`. -/
def LevelFine : LogLevel := 0
/-- Source: `LevelDebug`. -/
def LevelDebug : LogLevel := 1
/-- Source: `LevelInfo`. -/
def LevelInfo : LogLevel := 2
/-- Source: `LevelWarn`. -/
def LevelWarn : LogLevel := 3
/-- Source: `LevelError`. -/
def LevelError : LogLevel := 4
/-- Source: `LevelFatal`. -/
def LevelFatal : LogLevel := 5
/-- Source: `LevelPanic`. -/
def LevelPanic : LogLevel := 6
/-- Source: `LevelNone`. -/
def LevelNone : LogLevel := 7

/-- Source: `var logLevelToString = map[int]string{...}`; a key that is not in the
map gives the empty string. -/
def logLevelToString (level : Int) : String :=
  if level = LevelFine then "FINE"
  else if level = LevelDebug then "DEBUG"
  else if level = LevelInfo then "INFO"
  else if level = LevelWarn then "WARN"
  else if level = LevelError then "ERROR"
  else if level = LevelFatal then "FATAL"
  else if level = LevelPanic then "PANIC"
  else if level = LevelNone then "NONE"
  else ""

/-- What the logger takes from outside the package: the formatted time
`time.Now().Format(formatString)`, `strings.ToUpper`, `strings.ToLower`, and the
error the function stored in `println` returns for a line, given the lines it
was called with before. -/
structure Sink where
  now : String
  upper : String → String
  lower : String → String
  println : List String → String → Option String

/-- The package variables `logLevel` and `lastTimeStamp`.  `printed` is not a
variable of the package: it records the lines `println` was called with. -/
structure Logger where
  logLevel : LogLevel
  lastTimeStamp : String
  printed : List String
  deriving DecidableEq, Repr

/-- How `logMessage` ends: it returns `err`, or `log.Fatal` ends the process, or
`log.Panic` panics. -/
inductive Result where
  | returned (err : Option String)
  | fatal
  | panicked
  deriving DecidableEq, Repr

/-- Source: `func formatLog(level LogLevel, module, logText string) string`, the
format being `"[%s]\t%s\t%s - %s"`. -/
def formatLog (env : Sink) (lg : Logger) (level : LogLevel) (module logText : String) :
    Logger × String :=
  ({ lg with lastTimeStamp := env.now },
   "[" ++ logLevelToString level ++ "]\t" ++ env.now ++ "\t" ++ env.upper module ++ " - " ++
     logText)

/-- Source: `func logMessage(level LogLevel, module, logText string) error`. -/
def logMessage (env : Sink) (lg : Logger) (level : LogLevel) (module logText : String) :
    Logger × Result :=
  let (lg1, err) :=
    if level ≥ lg.logLevel then
      let (lg0, line) := formatLog env lg level module logText
      ({ lg0 with printed := lg0.printed ++ [line] }, env.println lg0.printed line)
    else (lg, none)
  if level > LevelError then
    if lg1.logLevel = LevelFatal then (lg1, .fatal)
    else if lg1.logLevel = LevelPanic then (lg1, .panicked)
    else (lg1, .returned err)
  else (lg1, .returned err)

/-- Source: `func SetLogLevel(level string)`. -/
def SetLogLevel (env : Sink) (lg : Logger) (level : String) : Logger :=
  let l := env.lower level
  if l = "fine" then { lg with logLevel := LevelFine }
  else if l = "debug" then { lg with logLevel := LevelDebug }
  else if l = "info" then { lg with logLevel := LevelInfo }
  else if l = "warn" then { lg with logLevel := LevelWarn }
  else if l = "error" then { lg with logLevel := LevelError }
  else if l = "fatal" then { lg with logLevel := LevelFatal }
  else if l = "panic" then { lg with logLevel := LevelPanic }
  else if l = "none" then { lg with logLevel := LevelNone }
  else { lg with logLevel := LevelInfo }

/-- Source: `func Fine(module, logText string, args ...interface{}) error`;
`logText` here is the result of `fmt.Sprintf(logText, args...)`. -/
def Fine (env : Sink) (lg : Logger) (module logText : String) : Logger × Result :=
  logMessage env lg LevelFine module logText

/-- Source: `func Debug(module, logText string, args ...interface{}) error`. -/
def Debug (env : Sink) (lg : Logger) (module logText : String) : Logger × Result :=
  logMessage env lg LevelDebug module logText

/-- Source: `func Info(module, logText string, args ...interface{}) error`. -/
def Info (env : Sink) (lg : Logger) (module logText : String) : Logger × Result :=
  logMessage env lg LevelInfo module logText

/-- Source: `func Warn(module, logText string, args ...interface{}) error`. -/
def Warn (env : Sink) (lg : Logger) (module logText : String) : Logger × Result :=
  logMessage env lg LevelWarn module logText

/-- Source: `func Error(module, logText string, args ...interface{}) error`. -/
def Error (env : Sink) (lg : Logger) (module logText : String) : Logger × Result :=
  logMessage env lg LevelError module logText

/-- The five logging functions with their levels. -/
def calls (env : Sink) :
    List (LogLevel × (Logger → String → String → Logger × Result)) :=
  [(LevelFine, Fine env), (LevelDebug, Debug env), (LevelInfo, Info env),
   (LevelWarn, Warn env), (LevelError, Error env)]

/-- A sink for the examples: fixed time, ASCII case mapping, `println` succeeds. -/
def testSink : Sink :=
  { now := "2024-01-01 00:00:00.000000",
    upper := fun s => String.mk (s.data.map Char.toUpper),
    lower := fun s => String.mk (s.data.map Char.toLower),
    println := fun _ _ => none }

end logger

namespace ui

/-- The digit loop of `strconv.Atoi`: the value of a sequence of decimal digits,
`none` when a character is not a digit. -/
def digitsValue : List Char → Nat → Option Nat
  | [], acc => some acc
  | c :: rest, acc =>
    if '0' ≤ c ∧ c ≤ '9' then digitsValue rest (acc * 10 + (c.toNat - '0'.toNat)) else none

/-- Go's `strconv.Atoi`, which the validators call: an optional sign, then
at least one decimal digit and nothing else; the value must fit the 64-bit `int`.
Returns the value and the error (`none` is `nil`); on a syntax error the value is
0, on a range error it is the nearest bound.  The error texts carry the input
without the quoting of `strconv.Quote`. -/
def Atoi (s : String) : Int × Option String :=
  let cs := s.data
  let neg : Bool := cs.head? = some '-'
  let ds := if cs.head? = some '-' ∨ cs.head? = some '+' then cs.tail else cs
  if ds = [] then (0, some ("strconv.Atoi: parsing \"" ++ s ++ "\": invalid syntax"))
  else
    match digitsValue ds 0 with
    | none => (0, some ("strconv.Atoi: parsing \"" ++ s ++ "\": invalid syntax"))
    | some n =>
      let v : Int := if neg then -(n : Int) else (n : Int)
      if v < -(2 : Int) ^ 63 then
        (-(2 : Int) ^ 63, some ("strconv.Atoi: parsing \"" ++ s ++ "\": value out of range"))
      else if v ≥ (2 : Int) ^ 63 then
        ((2 : Int) ^ 63 - 1, some ("strconv.Atoi: parsing \"" ++ s ++ "\": value out of range"))
      else (v, none)

/-- Source: `func ValidateParseTcpUdpPort(input string) (port uint16, err error)`.
`uint16(p)` is `p` modulo `2^16`. -/
def ValidateParseTcpUdpPort (input : String) : Nat × Option String :=
  match Atoi input with
  | (_, some e) => (0, some e)
  | (p, none) =>
    let port : Nat := (p % 65536).toNat
    if p ≠ (port : Int) ∨ p < 1 then (port, some "out of range") else (port, none)

/-- Source: `func ValidateTcpUdpPort(input string) (err error)`. -/
def ValidateTcpUdpPort (input : String) : Option String :=
  (ValidateParseTcpUdpPort input).2

/-- Go's `strings.Split(input, ".")` on the characters of the input: the pieces
between the dots, one more than there are dots. -/
def splitDots : List Char → List (List Char)
  | [] => [[]]
  | c :: rest =>
    if c = '.' then [] :: splitDots rest
    else
      match splitDots rest with
      | [] => [[c]]
      | piece :: pieces => (c :: piece) :: pieces

/-- The characters of `fmt.Sprintf("%08b", part)` for `0 <= part <= 255`, most
significant bit first; `true` is `'1'`, `false` is `'0'`. -/
def bits8 (part : Int) : List Bool :=
  (List.range 8).map (fun i => decide (part.toNat / 2 ^ (7 - i) % 2 = 1))

/-- The inner loop of `ValidateIPv4SubnetMask` over the bits of one octet, from the
flag `zeroDetected`: `none` when it returns "invalid IPv4 subnet mask", otherwise
the flag after the octet. -/
def scanBits : List Bool → Bool → Option Bool
  | [], zeroDetected => some zeroDetected
  | true :: rest, zeroDetected => if zeroDetected then none else scanBits rest zeroDetected
  | false :: rest, _ => scanBits rest true

/-- The outer loop of `ValidateIPv4SubnetMask` over the parts. -/
def maskLoop : List (List Char) → Bool → Option String
  | [], _ => none
  | partStr :: rest, zeroDetected =>
    match Atoi (String.mk partStr) with
    | (_, some _) => some "IPv4 octet out of range 0 .. 255"
    | (part, none) =>
      if part < 0 ∨ part > 255 then some "IPv4 octet out of range 0 .. 255"
      else
        match scanBits (bits8 part) zeroDetected with
        | none => some "invalid IPv4 subnet mask"
        | some z => maskLoop rest z

/-- Source: `func ValidateIPv4SubnetMask(input string) (err error)`. -/
def ValidateIPv4SubnetMask (input : String) : Option String :=
  let parts := splitDots input.data
  if parts.length ≠ 4 then some "IPv4 format. <111.222.123.212>"
  else maskLoop parts false

end ui

namespace crypto

/-- Go's conversion of an integer to the signed type of `w` bits (also the result of
an overflowing operation in that type): the value modulo `2^w`, taken in
`-2^(w-1) .. 2^(w-1)-1`. -/
def wrapInt (w : Nat) (x : Int) : Int :=
  (x + (2 : Int) ^ (w - 1)) % (2 : Int) ^ w - (2 : Int) ^ (w - 1)

/-- The value of `float64(a)` for a natural number `a < 2^64`: `a` itself below
`2^53`, and otherwise `a` rounded to 53 significant bits, ties to even. -/
def roundFloat64 (a : Nat) : Nat :=
  if a < 2 ^ 53 then a
  else
    let shift := Nat.log2 a - 52
    let q := a / 2 ^ shift
    let r := a % 2 ^ shift
    let q1 := if r > 2 ^ (shift - 1) ∨ (r = 2 ^ (shift - 1) ∧ q % 2 = 1) then q + 1 else q
    q1 * 2 ^ shift

/-- Source: `func RandInt64(min int64, max int64) (int64, error)`.  `src` is what
the random source gives to `crand.Int`: `none` when reading it fails, and
otherwise a number `raw` that decides which value of `[0, n)` `crand.Int` returns
(every value of the interval is `raw % n` for some `raw`).  The outer `none` is a
runtime failure: `crand.Int` panics when its bound is not positive, and when the
source fails it returns a nil `val`, which `val.Int64()` dereferences.
`int64(valRange)` for `valRange = 2^63` is taken as on amd64. -/
def RandInt64 (src : Option Nat) (min max : Int) : Option (Int × Option String) :=
  let valRange := roundFloat64 (wrapInt 64 (max - min)).natAbs
  let n : Int := if valRange < 2 ^ 63 then (valRange : Int) else -(2 : Int) ^ 63
  if n ≤ 0 then none
  else
    match src with
    | none => none
    | some raw => some (wrapInt 64 (min + ((raw : Int) % n)), none)

/-- Source: `func RandInt32(min int32, max int32) (int32, error)`. -/
def RandInt32 (src : Option Nat) (min max : Int) : Option (Int × Option String) :=
  match RandInt64 src min max with
  | none => none
  | some (i64, err) => some (wrapInt 32 i64, err)

/-- Source: `func RandInt16(min int16, max int16) (int16, error)`. -/
def RandInt16 (src : Option Nat) (min max : Int) : Option (Int × Option String) :=
  match RandInt64 src min max with
  | none => none
  | some (i64, err) => some (wrapInt 16 i64, err)

/-- Source: `func RandInt8(min int8, max int8) (int8, error)`. -/
def RandInt8 (src : Option Nat) (min max : Int) : Option (Int × Option String) :=
  match RandInt64 src min max with
  | none => none
  | some (i64, err) => some (wrapInt 8 i64, err)

/-- The `for i := 0; i < length; i++` loop of `RandCharacters` and `RandString`,
from index `i` with `k` iterations left; `src i` is what the random source gives
to the `i`-th call of `RandInt8`.  `byte(b)` is `b` modulo 256.  On an error of
`RandInt8` the result is nil (empty) with that error. -/
def fillLoop (src : Nat → Option Nat) (start stop : Int) :
    Nat → Nat → Option (List Byte × Option String)
  | _, 0 => some ([], none)
  | i, k + 1 =>
    match RandInt8 (src i) start stop with
    | none => none
    | some (_, some e) => some ([], some e)
    | some (b, none) =>
      match fillLoop src start stop (i + 1) k with
      | none => none
      | some (_, some e) => some ([], some e)
      | some (bytes, none) => some (Fin.ofNat (b % 256).toNat :: bytes, none)

/-- Source: `func RandCharacters(length int, capital bool) ([]byte, error)`;
`make([]byte, length)` fails at runtime for a negative `length`.  `'a'` is 97,
`'z'` 122, `'A'` 65, `'Z'` 90. -/
def RandCharacters (src : Nat → Option Nat) (length : Int) (capital : Bool) :
    Option (List Byte × Option String) :=
  if length < 0 then none
  else if capital then fillLoop src 65 90 0 length.toNat
  else fillLoop src 97 122 0 length.toNat

/-- Source: `func RandString(length int) (string, error)`, the string as its bytes.
`'!'` is 33, `'~'` 126. -/
def RandString (src : Nat → Option Nat) (length : Int) :
    Option (List Byte × Option String) :=
  if length < 0 then none
  else fillLoop src 33 126 0 length.toNat

end crypto

/-! ## Theorems -/

namespace connection

/-- C2: for every payload `p`, `AppendDelimeter p` is `p` followed by exactly one
byte `0x00`: its length is `len(p)+1`, its first `len(p)` bytes are `p` and its
last byte is `0x00`. -/
theorem AppendDelimeter_bit_exact (p : List Byte) :
    AppendDelimeter p = p ++ [(0x00 : Byte)] ∧
    (AppendDelimeter p).length = p.length + 1 ∧
    (AppendDelimeter p).take p.length = p ∧
    (AppendDelimeter p)[p.length]? = some (0x00 : Byte) ∧
    (AppendDelimeter p).getLast? = some (0x00 : Byte) := by
  simp [AppendDelimeter, DefaultDelimiter]

/-- C1: for every payload `p` that does not contain the sentinel byte `0x00`
(the empty payload included), `TruncateDelimeter (AppendDelimeter p)` returns
`p` (and does not fail). -/
theorem Truncate_Append_roundtrip (p : List Byte) (_h : (0x00 : Byte) ∉ p) :
    TruncateDelimeter (AppendDelimeter p) = some p := by
  have hlen : (((p ++ [DefaultDelimiter]).length : Int) - 1) = (p.length : Int) := by
    simp
  unfold TruncateDelimeter AppendDelimeter
  rw [hlen]
  simp

/-- Witness for C1 at the payload `[1, 2, 3]` . -/
theorem Truncate_Append_roundtrip_witness :
    (0x00 : Byte) ∉ ([1, 2, 3] : List Byte) ∧
    TruncateDelimeter (AppendDelimeter [1, 2, 3]) = some [1, 2, 3] :=
  ⟨by decide, Truncate_Append_roundtrip [1, 2, 3] (by decide)⟩

end connection

namespace containers

variable {α : Type}

/-! ### The lookup loop -/

theorem getElem?_split {β : Type} (a : List β) (e : β) (b : List β) :
    (a ++ e :: b)[a.length]? = some e := by
  induction a with
  | nil => simp
  | cons c rest ih => simpa using ih

theorem getLoop_cons_ne (id : Int) (c : Item α) (rest : List (Item α)) (i : Int)
    (hc : c.id ≠ id) : getLoop id (c :: rest) i = getLoop id rest (i + 1) := by
  simp [getLoop, hc]

theorem getLoop_miss (id : Int) (xs : List (Item α)) (i : Int)
    (h : ∀ c ∈ xs, c.id ≠ id) : getLoop id xs i = (-1, none) := by
  induction xs generalizing i with
  | nil => rfl
  | cons c rest ih =>
    have hc : c.id ≠ id := h c (List.mem_cons_self _ _)
    rw [getLoop_cons_ne id c rest i hc]
    exact ih (i + 1) (fun d hd => h d (List.mem_cons_of_mem _ hd))

theorem getLoop_hit (id : Int) (a : List (Item α)) (e : Item α) (b : List (Item α)) (i : Int)
    (ha : ∀ c ∈ a, c.id ≠ id) (he : e.id = id) :
    getLoop id (a ++ e :: b) i = (i + a.length, e.item) := by
  induction a generalizing i with
  | nil => simp [getLoop, he]
  | cons c rest ih =>
    have hc : c.id ≠ id := ha c (List.mem_cons_self _ _)
    rw [List.cons_append, getLoop_cons_ne id c _ i hc,
      ih (i + 1) (fun d hd => ha d (List.mem_cons_of_mem _ hd))]
    simp only [List.length_cons, Nat.cast_add, Nat.cast_one]
    congr 1
    ring

theorem getLoop_skip (id : Int) (a b : List (Item α)) (i : Int)
    (ha : ∀ c ∈ a, c.id ≠ id) :
    getLoop id (a ++ b) i = getLoop id b (i + a.length) := by
  induction a generalizing i with
  | nil => simp
  | cons c rest ih =>
    have hc : c.id ≠ id := ha c (List.mem_cons_self _ _)
    rw [List.cons_append, getLoop_cons_ne id c _ i hc,
      ih (i + 1) (fun d hd => ha d (List.mem_cons_of_mem _ hd))]
    simp only [List.length_cons, Nat.cast_add, Nat.cast_one]
    congr 1
    ring

/-- The first element carrying `id` splits the slice. -/
theorem split_first (id : Int) (xs : List (Item α)) (h : ∃ c ∈ xs, c.id = id) :
    ∃ a e b, xs = a ++ e :: b ∧ e.id = id ∧ ∀ c ∈ a, c.id ≠ id := by
  induction xs with
  | nil => simp at h
  | cons c rest ih =>
    by_cases hc : c.id = id
    · exact ⟨[], c, rest, rfl, hc, by simp⟩
    · have h2 : ∃ d ∈ rest, d.id = id := by
        obtain ⟨d, hd, hdid⟩ := h
        rcases List.mem_cons.mp hd with rfl | hd
        · exact absurd hdid hc
        · exact ⟨d, hd, hdid⟩
      obtain ⟨a, e, b, hx, he, ha⟩ := ih h2
      refine ⟨c :: a, e, b, by simp [hx], he, ?_⟩
      intro d hd
      rcases List.mem_cons.mp hd with rfl | hd
      · exact hc
      · exact ha d hd

theorem mem_GetIds_iff (l : IdList α) (id : Int) :
    id ∈ l.GetIds ↔ ∃ c ∈ l.items, c.id = id := by
  simp [IdList.GetIds]

theorem not_mem_GetIds_iff (l : IdList α) (id : Int) :
    id ∉ l.GetIds ↔ ∀ c ∈ l.items, c.id ≠ id := by
  simp [IdList.GetIds]

theorem Get_of_not_mem (l : IdList α) (id : Int) (h : id ∉ l.GetIds) :
    l.Get id = (-1, none) :=
  getLoop_miss id l.items 0 ((not_mem_GetIds_iff l id).mp h)

theorem Get_of_split (l : IdList α) (id : Int) (a : List (Item α)) (e : Item α)
    (b : List (Item α)) (hx : l.items = a ++ e :: b) (he : e.id = id)
    (ha : ∀ c ∈ a, c.id ≠ id) : l.Get id = ((a.length : Int), e.item) := by
  unfold IdList.Get
  rw [hx, getLoop_hit id a e b 0 ha he]
  simp

theorem Get_fst_nonneg_iff (l : IdList α) (id : Int) :
    0 ≤ (l.Get id).1 ↔ id ∈ l.GetIds := by
  constructor
  · intro h
    by_contra hn
    rw [Get_of_not_mem l id hn] at h
    simp at h
  · intro h
    obtain ⟨a, e, b, hx, he, ha⟩ := split_first id l.items ((mem_GetIds_iff l id).mp h)
    rw [Get_of_split l id a e b hx he ha]
    simp

theorem Exist_iff (l : IdList α) (id : Int) : l.Exist id = true ↔ id ∈ l.GetIds := by
  rw [← Get_fst_nonneg_iff]
  unfold IdList.Exist
  by_cases h : (l.Get id).1 < 0
  · simp [h]
  · simp [h, not_lt.mp h]

theorem getLoop_append_of_mem (id : Int) (a b : List (Item α)) (i : Int)
    (h : ∃ c ∈ a, c.id = id) : getLoop id (a ++ b) i = getLoop id a i := by
  obtain ⟨a1, e, a2, hx, he, ha⟩ := split_first id a h
  subst hx
  rw [List.append_assoc, List.cons_append, getLoop_hit id a1 e (a2 ++ b) i ha he,
    getLoop_hit id a1 e a2 i ha he]

theorem getLoop_congr_other (id : Int) (a : List (Item α)) (e e' : Item α) (b : List (Item α))
    (i : Int) (he : e.id ≠ id) (he' : e'.id ≠ id) :
    getLoop id (a ++ e :: b) i = getLoop id (a ++ e' :: b) i := by
  induction a generalizing i with
  | nil => simp [getLoop, he, he']
  | cons c rest ih =>
    by_cases hc : c.id = id
    · simp [getLoop, hc]
    · rw [List.cons_append, List.cons_append, getLoop_cons_ne id c _ i hc,
        getLoop_cons_ne id c _ i hc, ih (i + 1)]

/-- With pairwise distinct ids, the handle found for an id is the one of the
(only) element carrying it. -/
theorem getLoop_snd_of_mem (xs : List (Item α)) (c : Item α) (i : Int)
    (hn : (xs.map (fun item => item.id)).Nodup) (hc : c ∈ xs) :
    (getLoop c.id xs i).2 = c.item := by
  obtain ⟨s, t, rfl⟩ := List.append_of_mem hc
  have hs : ∀ d ∈ s, d.id ≠ c.id := by
    intro d hd hdc
    rw [List.map_append, List.map_cons] at hn
    have hdisj := (List.nodup_append.mp hn).2.2
    exact hdisj (List.mem_map_of_mem _ hd) (by rw [hdc]; exact List.mem_cons_self _ _)
  rw [getLoop_hit c.id s c t i hs rfl]

/-! ### AddOrUpdate -/

theorem modify_split (f : Item α → Item α) (a : List (Item α)) (e : Item α)
    (b : List (Item α)) : List.modify f a.length (a ++ e :: b) = a ++ f e :: b := by
  induction a with
  | nil => simp
  | cons c rest ih => simp [ih]

theorem AddOrUpdate_absent (l : IdList α) (id : Int) (h : Option α) (hid : id ∉ l.GetIds) :
    (l.AddOrUpdate id h).items = l.items ++ [{ id := id, item := h }] := by
  unfold IdList.AddOrUpdate
  simp [Get_of_not_mem l id hid]

theorem AddOrUpdate_split (l : IdList α) (id : Int) (h : Option α) (a : List (Item α))
    (e : Item α) (b : List (Item α)) (hx : l.items = a ++ e :: b) (he : e.id = id)
    (ha : ∀ c ∈ a, c.id ≠ id) :
    (l.AddOrUpdate id h).items = a ++ { id := e.id, item := h } :: b := by
  unfold IdList.AddOrUpdate
  simp only [Get_of_split l id a e b hx he ha, ge_iff_le, Nat.cast_nonneg, if_true,
    Int.toNat_ofNat]
  rw [hx, modify_split]

theorem AddOrUpdate_GetIds_absent (l : IdList α) (id : Int) (h : Option α)
    (hid : id ∉ l.GetIds) : (l.AddOrUpdate id h).GetIds = l.GetIds ++ [id] := by
  simp [IdList.GetIds, AddOrUpdate_absent l id h hid]

theorem AddOrUpdate_GetIds_present (l : IdList α) (id : Int) (h : Option α)
    (hid : id ∈ l.GetIds) : (l.AddOrUpdate id h).GetIds = l.GetIds := by
  obtain ⟨a, e, b, hx, he, ha⟩ := split_first id l.items ((mem_GetIds_iff l id).mp hid)
  simp [IdList.GetIds, AddOrUpdate_split l id h a e b hx he ha, hx]

theorem AddOrUpdate_Get_self (l : IdList α) (id : Int) (h : Option α) :
    (l.AddOrUpdate id h).Get id =
      (if id ∈ l.GetIds then (l.Get id).1 else (l.GetIds.length : Int), h) := by
  by_cases hid : id ∈ l.GetIds
  · obtain ⟨a, e, b, hx, he, ha⟩ := split_first id l.items ((mem_GetIds_iff l id).mp hid)
    rw [if_pos hid, Get_of_split l id a e b hx he ha,
      Get_of_split (l.AddOrUpdate id h) id a { id := e.id, item := h } b
        (AddOrUpdate_split l id h a e b hx he ha) he ha]
  · rw [if_neg hid,
      Get_of_split (l.AddOrUpdate id h) id l.items { id := id, item := h } []
        (AddOrUpdate_absent l id h hid) rfl ((not_mem_GetIds_iff l id).mp hid)]
    simp [IdList.GetIds]

theorem AddOrUpdate_Get_other (l : IdList α) (id : Int) (h : Option α) (id' : Int)
    (hne : id' ≠ id) : (l.AddOrUpdate id h).Get id' = l.Get id' := by
  by_cases hid : id ∈ l.GetIds
  · obtain ⟨a, e, b, hx, he, ha⟩ := split_first id l.items ((mem_GetIds_iff l id).mp hid)
    unfold IdList.Get
    rw [AddOrUpdate_split l id h a e b hx he ha, hx]
    exact getLoop_congr_other id' a _ _ b 0 (by simpa [he] using hne.symm)
      (by simpa [he] using hne.symm)
  · unfold IdList.Get
    rw [AddOrUpdate_absent l id h hid]
    by_cases hid' : ∃ c ∈ l.items, c.id = id'
    · exact getLoop_append_of_mem id' l.items _ 0 hid'
    · have hall : ∀ c ∈ l.items, c.id ≠ id' := by
        intro c hc hcid
        exact hid' ⟨c, hc, hcid⟩
      rw [getLoop_skip id' l.items _ 0 hall, getLoop_miss id' l.items 0 hall]
      exact getLoop_miss id' _ _ (by simpa using hne.symm)

theorem AddOrUpdate_mem_GetIds (l : IdList α) (id : Int) (h : Option α) :
    id ∈ (l.AddOrUpdate id h).GetIds := by
  by_cases hid : id ∈ l.GetIds
  · rw [AddOrUpdate_GetIds_present l id h hid]; exact hid
  · rw [AddOrUpdate_GetIds_absent l id h hid]; simp

theorem AddOrUpdate_nodup (l : IdList α) (id : Int) (h : Option α)
    (hn : l.GetIds.Nodup) : (l.AddOrUpdate id h).GetIds.Nodup := by
  by_cases hid : id ∈ l.GetIds
  · rw [AddOrUpdate_GetIds_present l id h hid]; exact hn
  · rw [AddOrUpdate_GetIds_absent l id h hid]
    exact List.Nodup.append hn (List.nodup_singleton id) (by simpa using hid)

/-! ### Delete -/

theorem Delete_absent (l : IdList α) (id : Int) (hid : id ∉ l.GetIds) :
    l.Delete id = (l, none) := by
  unfold IdList.Delete
  simp [Get_of_not_mem l id hid]

/-- Deleting the id stored in the last slot only shrinks the slice. -/
theorem Delete_split_last (l : IdList α) (id : Int) (a : List (Item α)) (e : Item α)
    (hx : l.items = a ++ [e]) (he : e.id = id) (ha : ∀ c ∈ a, c.id ≠ id) :
    l.Delete id = ({ items := a }, e.item) := by
  unfold IdList.Delete
  rw [Get_of_split l id a e [] hx he ha]
  simp [hx]

/-- Deleting an id stored before the last slot moves the last element into its slot. -/
theorem Delete_split_mid (l : IdList α) (id : Int) (a : List (Item α)) (e : Item α)
    (b : List (Item α)) (z : Item α)
    (hx : l.items = a ++ e :: (b ++ [z])) (he : e.id = id) (ha : ∀ c ∈ a, c.id ≠ id) :
    l.Delete id = ({ items := a ++ z :: b }, e.item) := by
  unfold IdList.Delete
  rw [Get_of_split l id a e (b ++ [z]) hx he ha]
  have hlen : l.items.length - 1 = (a ++ z :: b).length := by
    rw [hx]; simp
  have hlast : l.items[l.items.length - 1]? = some z := by
    have hassoc : a ++ e :: (b ++ [z]) = (a ++ e :: b) ++ [z] := by simp
    rw [← List.getLast?_eq_getElem?, hx, hassoc, List.getLast?_append]
    simp
  have hset : l.items.set a.length z = (a ++ z :: b) ++ [z] := by
    rw [hx]; simp
  simp only [Nat.cast_nonneg, not_lt.mpr, if_false, hlast, Int.toNat_ofNat, hset]
  rw [hlen, List.take_left]

/-- The three shapes of a `Delete` call. -/
theorem Delete_cases (l : IdList α) (id : Int) :
    (id ∉ l.GetIds ∧ l.Delete id = (l, none)) ∨
    (∃ a e, l.items = a ++ [e] ∧ e.id = id ∧ (∀ c ∈ a, c.id ≠ id) ∧
      l.Delete id = ({ items := a }, e.item)) ∨
    (∃ a e b z, l.items = a ++ e :: (b ++ [z]) ∧ e.id = id ∧ (∀ c ∈ a, c.id ≠ id) ∧
      l.Delete id = ({ items := a ++ z :: b }, e.item)) := by
  by_cases hid : id ∈ l.GetIds
  · obtain ⟨a, e, b, hx, he, ha⟩ := split_first id l.items ((mem_GetIds_iff l id).mp hid)
    rcases List.eq_nil_or_concat b with rfl | ⟨b', z, hb⟩
    · exact Or.inr (Or.inl ⟨a, e, hx, he, ha, Delete_split_last l id a e hx he ha⟩)
    · rw [hb, List.concat_eq_append] at hx
      exact Or.inr (Or.inr ⟨a, e, b', z, hx, he, ha, Delete_split_mid l id a e b' z hx he ha⟩)
  · exact Or.inl ⟨hid, Delete_absent l id hid⟩

/-- What `Delete` keeps: a duplicate-free list stays duplicate-free, and the kept
elements are exactly the old ones other than the first carrying `id`. -/
theorem Delete_items (l : IdList α) (id : Int) (hn : l.GetIds.Nodup) :
    (l.Delete id).1.GetIds.Nodup ∧ id ∉ (l.Delete id).1.GetIds ∧
    (∀ c, c ∈ (l.Delete id).1.items ↔ (c ∈ l.items ∧ c.id ≠ id)) ∧
    ((l.Delete id).1.GetIds.length : Int) =
      (l.GetIds.length : Int) - (if id ∈ l.GetIds then 1 else 0) := by
  rcases Delete_cases l id with ⟨hid, hd⟩ | ⟨a, e, hx, he, ha, hd⟩ | ⟨a, e, b, z, hx, he, ha, hd⟩
  · rw [hd]
    refine ⟨hn, hid, ?_, by simp [hid]⟩
    intro c
    constructor
    · intro hc
      exact ⟨hc, fun hcid => hid ((mem_GetIds_iff l id).mpr ⟨c, hc, hcid⟩)⟩
    · exact fun hc => hc.1
  · have hmem : id ∈ l.GetIds := (mem_GetIds_iff l id).mpr ⟨e, by simp [hx], he⟩
    rw [hd]
    simp only [IdList.GetIds, hx, List.map_append, List.map_cons, List.map_nil] at hn hmem ⊢
    have hna := (List.nodup_append.mp hn).1
    refine ⟨hna, by simpa using ha, ?_, ?_⟩
    · intro c
      constructor
      · intro hc
        exact ⟨by simp [hc], ha c hc⟩
      · rintro ⟨hc, hcid⟩
        rcases List.mem_append.mp hc with hc | hc
        · exact hc
        · simp at hc
          exact absurd (hc ▸ he) hcid
    · simp [he]
  · have hmem : id ∈ l.GetIds := (mem_GetIds_iff l id).mpr ⟨e, by simp [hx], he⟩
    rw [hd]
    have hperm : List.Perm (a ++ z :: b) (a ++ (b ++ [z])) :=
      List.Perm.append_left a (List.perm_append_singleton z b).symm
    have hsub : List.Sublist (a ++ (b ++ [z])) (a ++ e :: (b ++ [z])) :=
      List.Sublist.append_left (List.sublist_cons_self e _) a
    have hn0 : (List.map (fun item : Item α => item.id) (a ++ e :: (b ++ [z]))).Nodup := by
      simpa [IdList.GetIds, hx] using hn
    have hn1 : (List.map (fun item : Item α => item.id) (a ++ (b ++ [z]))).Nodup :=
      hn0.sublist (hsub.map _)
    have hn2 : (List.map (fun item : Item α => item.id) (a ++ z :: b)).Nodup :=
      ((hperm.map _).nodup_iff).mpr hn1
    have hrest : ∀ c ∈ b ++ [z], c.id ≠ id := by
      intro c hc hcid
      rw [List.map_append, List.map_cons] at hn0
      have hcons := (List.nodup_append.mp hn0).2.1
      have hnot := (List.nodup_cons.mp hcons).1
      exact hnot (by rw [he, ← hcid]; exact List.mem_map_of_mem _ hc)
    refine ⟨hn2, ?_, ?_, ?_⟩
    · intro hin
      obtain ⟨c, hc, hcid⟩ := (mem_GetIds_iff _ id).mp hin
      rcases List.mem_append.mp (hperm.mem_iff.mp hc) with hc | hc
      · exact ha c hc hcid
      · exact hrest c hc hcid
    · intro c
      constructor
      · intro hc
        rcases List.mem_append.mp (hperm.mem_iff.mp hc) with hc | hc
        · exact ⟨by rw [hx]; simp [hc], ha c hc⟩
        · refine ⟨?_, hrest c hc⟩
          rw [hx]
          exact List.mem_append_right _ (List.mem_cons_of_mem _ hc)
      · rintro ⟨hc, hcid⟩
        rw [hx] at hc
        apply hperm.mem_iff.mpr
        rcases List.mem_append.mp hc with hc | hc
        · exact List.mem_append_left _ hc
        · rcases List.mem_cons.mp hc with rfl | hc
          · exact absurd he hcid
          · exact List.mem_append_right _ hc
    · rw [if_pos hmem]
      simp [IdList.GetIds, hx]
      ring

/-! ### Reachable states -/

theorem Op_run_nodup (op : Op α) (l : IdList α) (hn : l.GetIds.Nodup) :
    (op.run l).GetIds.Nodup := by
  cases op with
  | addOrUpdate id item => exact AddOrUpdate_nodup l id item hn
  | delete id => exact (Delete_items l id hn).1
  | reset => simp [Op.run, IdList.Reset, IdList.GetIds]
  | get id => exact hn
  | getIds => exact hn
  | exist id => exact hn

theorem runOps_nodup (ops : List (Op α)) (l : IdList α) (hn : l.GetIds.Nodup) :
    (runOps ops l).GetIds.Nodup := by
  induction ops generalizing l with
  | nil => exact hn
  | cons op rest ih => exact ih (op.run l) (Op_run_nodup op l hn)

theorem Reachable_nodup (l : IdList α) (hr : Reachable l) : l.GetIds.Nodup := by
  obtain ⟨ops, rfl⟩ := hr
  exact runOps_nodup ops NewList (by simp [NewList, IdList.GetIds])

theorem Get_snd_of_mem (l : IdList α) (c : Item α) (hn : l.GetIds.Nodup) (hc : c ∈ l.items) :
    (l.Get c.id).2 = c.item :=
  getLoop_snd_of_mem l.items c 0 hn hc

/-! ### The claims about the list -/

/-- C3: for every state reachable from `NewList`, every id and all handles `a`, `b`
(nil included), after `AddOrUpdate(id, a)` then `AddOrUpdate(id, b)` the id occurs
exactly once in `GetIds()` and `Get(id)` returns the handle `b`. -/
theorem AddOrUpdate_twice_unique (l : IdList α) (hr : Reachable l) (id : Int)
    (a b : Option α) :
    ((l.AddOrUpdate id a).AddOrUpdate id b).GetIds.count id = 1 ∧
    (((l.AddOrUpdate id a).AddOrUpdate id b).Get id).2 = b := by
  have hn : ((l.AddOrUpdate id a).AddOrUpdate id b).GetIds.Nodup :=
    AddOrUpdate_nodup _ id b (AddOrUpdate_nodup l id a (Reachable_nodup l hr))
  refine ⟨List.count_eq_one_of_mem hn (AddOrUpdate_mem_GetIds _ id b), ?_⟩
  rw [AddOrUpdate_Get_self]

/-- Witness for C3: the state after `AddOrUpdate(5, 1)`, `AddOrUpdate(7, 2)`, then
id `7` with handles `3` and `4`. -/
theorem AddOrUpdate_twice_unique_witness :
    Reachable (runOps [Op.addOrUpdate 5 (some 1), Op.addOrUpdate 7 (some 2)]
      (NewList : IdList Nat)) ∧
    ((((runOps [Op.addOrUpdate 5 (some 1), Op.addOrUpdate 7 (some 2)]
      (NewList : IdList Nat)).AddOrUpdate 7 (some 3)).AddOrUpdate 7 (some 4)).GetIds.count 7 = 1 ∧
     ((((runOps [Op.addOrUpdate 5 (some 1), Op.addOrUpdate 7 (some 2)]
      (NewList : IdList Nat)).AddOrUpdate 7 (some 3)).AddOrUpdate 7 (some 4)).Get 7).2 = some 4) :=
  ⟨⟨_, rfl⟩, AddOrUpdate_twice_unique _ ⟨_, rfl⟩ 7 (some 3) (some 4)⟩

/-- C4: starting from `NewList`, after every finite sequence of `AddOrUpdate`,
`Delete`, `Reset`, `Get`, `GetIds` and `Exist` calls executed one after the other,
`GetIds()` contains no duplicate. -/
theorem GetIds_nodup_after_ops (ops : List (Op α)) :
    (runOps ops (NewList : IdList α)).GetIds.Nodup :=
  runOps_nodup ops NewList (by simp [NewList, IdList.GetIds])

/-- C5: for every state reachable from `NewList` and every id: if the id is present,
then after `Delete(id)` `Exist(id)` is false, `GetIds()` is shorter by exactly one,
and every other id that was present is still present with the handle it had; if
the id is absent, `Delete(id)` leaves the list unchanged. -/
theorem Delete_removes_only_id (l : IdList α) (hr : Reachable l) (id : Int) :
    (l.Exist id = true →
      (l.Delete id).1.Exist id = false ∧
      (l.Delete id).1.GetIds.length + 1 = l.GetIds.length ∧
      ∀ id', id' ≠ id → l.Exist id' = true →
        (l.Delete id).1.Exist id' = true ∧ ((l.Delete id).1.Get id').2 = (l.Get id').2) ∧
    (l.Exist id = false → (l.Delete id).1 = l) := by
  have hn := Reachable_nodup l hr
  obtain ⟨hn', hnot, hmem, hlen⟩ := Delete_items l id hn
  constructor
  · intro hex
    have hid : id ∈ l.GetIds := (Exist_iff l id).mp hex
    refine ⟨?_, ?_, ?_⟩
    · rw [Bool.eq_false_iff]
      exact fun h => hnot ((Exist_iff _ id).mp h)
    · rw [if_pos hid] at hlen
      omega
    · intro id' hne hex'
      obtain ⟨c, hc, hcid⟩ := (mem_GetIds_iff l id').mp ((Exist_iff l id').mp hex')
      have hc' : c ∈ (l.Delete id).1.items := (hmem c).mpr ⟨hc, by rw [hcid]; exact hne⟩
      refine ⟨(Exist_iff _ id').mpr ((mem_GetIds_iff _ id').mpr ⟨c, hc', hcid⟩), ?_⟩
      rw [← hcid, Get_snd_of_mem _ c hn' hc', Get_snd_of_mem l c hn hc]
  · intro hex
    have hid : id ∉ l.GetIds := by
      intro h
      rw [(Exist_iff l id).mpr h] at hex
      exact Bool.noConfusion hex
    rw [Delete_absent l id hid]

/-- Witness for C5: the state after `AddOrUpdate(5, 1)`, `AddOrUpdate(7, 2)`,
`AddOrUpdate(9, 3)`, deleting the id `5` stored first. -/
theorem Delete_removes_only_id_witness :
    Reachable (runOps [Op.addOrUpdate 5 (some 1), Op.addOrUpdate 7 (some 2),
      Op.addOrUpdate 9 (some 3)] (NewList : IdList Nat)) ∧
    (runOps [Op.addOrUpdate 5 (some 1), Op.addOrUpdate 7 (some 2),
      Op.addOrUpdate 9 (some 3)] (NewList : IdList Nat)).Exist 5 = true ∧
    ((runOps [Op.addOrUpdate 5 (some 1), Op.addOrUpdate 7 (some 2),
      Op.addOrUpdate 9 (some 3)] (NewList : IdList Nat)).Delete 5).1.Exist 5 = false ∧
    ((runOps [Op.addOrUpdate 5 (some 1), Op.addOrUpdate 7 (some 2),
      Op.addOrUpdate 9 (some 3)] (NewList : IdList Nat)).Delete 5).1.GetIds = [9, 7] :=
  ⟨⟨_, rfl⟩, by decide,
    ((Delete_removes_only_id (runOps [Op.addOrUpdate 5 (some 1), Op.addOrUpdate 7 (some 2),
      Op.addOrUpdate 9 (some 3)] (NewList : IdList Nat)) ⟨_, rfl⟩ 5).1 (by decide)).1,
    by decide⟩

/-- C6: for every list state, id and handle `h`: `GetIds()` afterwards is the
previous `GetIds()` with `id` appended at the end when the id was absent, and is
unchanged when it was present; `Get(id)` afterwards returns `h` (at the old index
of the id, or at the old length when it was absent); for every other id,
`Get` returns the same index and handle as before. -/
theorem AddOrUpdate_insert_or_overwrite (l : IdList α) (id : Int) (h : Option α) :
    (l.AddOrUpdate id h).GetIds = (if id ∈ l.GetIds then l.GetIds else l.GetIds ++ [id]) ∧
    ((l.AddOrUpdate id h).Get id).2 = h ∧
    ((l.AddOrUpdate id h).Get id).1 =
      (if id ∈ l.GetIds then (l.Get id).1 else (l.GetIds.length : Int)) ∧
    (∀ id', id' ≠ id → (l.AddOrUpdate id h).Get id' = l.Get id') := by
  refine ⟨?_, ?_, ?_, AddOrUpdate_Get_other l id h⟩
  · by_cases hid : id ∈ l.GetIds
    · rw [if_pos hid, AddOrUpdate_GetIds_present l id h hid]
    · rw [if_neg hid, AddOrUpdate_GetIds_absent l id h hid]
  · rw [AddOrUpdate_Get_self]
  · rw [AddOrUpdate_Get_self]

/-- C7: for every list state, after `Reset()` `GetIds()` is empty and `Exist(id)` is
false for every id; a fresh `NewList()` is empty in the same sense. -/
theorem Reset_clears_all (l : IdList α) :
    l.Reset.GetIds = [] ∧ (∀ id, l.Reset.Exist id = false) ∧
    (NewList : IdList α).GetIds = [] ∧ (∀ id, (NewList : IdList α).Exist id = false) := by
  refine ⟨rfl, fun id => ?_, rfl, fun id => ?_⟩ <;>
    simp [IdList.Exist, IdList.Get, IdList.Reset, NewList, getLoop]

/-- C8: for every list state and id, `Get(id)` returns index `-1` and a nil handle
when no entry has the id; otherwise it returns the smallest index `i` whose stored
id is `id` (so `GetIds()[i] == id`) with the handle stored at `i`; `Exist(id)` is
true exactly when `Get(id)` returns an index `>= 0`, which is exactly when `id`
occurs in `GetIds()`. -/
theorem Get_lookup_by_value (l : IdList α) (id : Int) :
    (id ∉ l.GetIds → l.Get id = (-1, none)) ∧
    (id ∈ l.GetIds → ∃ i : Nat, (l.Get id).1 = (i : Int) ∧ l.GetIds[i]? = some id ∧
      (∀ j, j < i → l.GetIds[j]? ≠ some id) ∧
      (l.items[i]?).map (fun e => e.item) = some (l.Get id).2) ∧
    (l.Exist id = true ↔ 0 ≤ (l.Get id).1) ∧
    (0 ≤ (l.Get id).1 ↔ id ∈ l.GetIds) := by
  refine ⟨Get_of_not_mem l id, ?_, ?_, Get_fst_nonneg_iff l id⟩
  · intro hid
    obtain ⟨a, e, b, hx, he, ha⟩ := split_first id l.items ((mem_GetIds_iff l id).mp hid)
    refine ⟨a.length, ?_, ?_, ?_, ?_⟩
    · rw [Get_of_split l id a e b hx he ha]
    · have h1 := getElem?_split (a.map (fun item => item.id)) id (b.map (fun item => item.id))
      simpa [IdList.GetIds, hx, he] using h1
    · intro j hj hget
      have hja : j < (a.map (fun item => item.id)).length := by simpa using hj
      simp only [IdList.GetIds, hx, List.map_append] at hget
      rw [List.getElem?_append_left hja, List.getElem?_map] at hget
      have hjl : j < a.length := hj
      rw [List.getElem?_eq_getElem hjl] at hget
      simp at hget
      exact ha a[j] (List.getElem_mem _) hget
    · rw [Get_of_split l id a e b hx he ha, hx, getElem?_split a e b]
      rfl
  · rw [Get_fst_nonneg_iff, Exist_iff]

end containers

namespace socket

open connection containers

/-! ### Send -/

theorem Send_absent (env : Env) (s : Server) (id : Int) (msg : List Byte)
    (hid : id ∉ s.clients.GetIds) :
    s.Send env id msg = some (s, some "no connection with given id") := by
  unfold Server.Send
  rw [Get_of_not_mem s.clients id hid]

theorem Udp_not_stream : ¬ (Udp = Tcp ∨ Udp = Tls ∨ Udp = Unix) := by decide

/-- In a well-formed server every registered id has a handle of the right type. -/
theorem WF_handle (s : Server) (hwf : s.WF) (id : Int) (hid : id ∈ s.clients.GetIds) :
    ∃ h, (s.clients.Get id).2 = some h ∧ s.handleOk { id := id, item := some h } = true := by
  obtain ⟨c, hc, hcid⟩ := (mem_GetIds_iff s.clients id).mp hid
  have hok : s.handleOk c = true := (List.all_eq_true.mp hwf.2) c hc
  have hget := Get_snd_of_mem s.clients c hwf.1 hc
  rw [hcid] at hget
  cases hci : c.item with
  | none => simp [Server.handleOk, hci] at hok
  | some h =>
    refine ⟨h, by rw [hget, hci], ?_⟩
    simpa [Server.handleOk, hci] using hok

/-- A send whose write succeeds only extends the trace by that write. -/
theorem Send_ok (env : Env) (s : Server) (id : Int) (msg : List Byte) (h : Handle)
    (hget : (s.clients.Get id).2 = some h)
    (hok : s.handleOk { id := id, item := some h } = true)
    (hw : env.write s.trace h (AppendDelimeter msg) = none) :
    s.Send env id msg =
      some ({ s with trace := s.trace ++ [.write h (AppendDelimeter msg) none] }, none) := by
  unfold Server.Send
  rw [hget]
  cases h with
  | conn c =>
    have hp : s.proto = Tcp ∨ s.proto = Tls ∨ s.proto = Unix := by
      simpa [Server.handleOk] using hok
    simp [hp, hw]
  | addr a =>
    have hp : s.proto = Udp ∧ s.udpListener = true := by
      simpa [Server.handleOk] using hok
    have hns : ¬ Udp = Tcp ∧ ¬ Udp = Tls ∧ ¬ Udp = Unix := by decide
    simp [hns, hp.1, hp.2, hw]

/-- A send whose write fails returns the error of the write; on a UDP server it
also deletes the id and calls `Disconnected(id)`. -/
theorem Send_fail (env : Env) (s : Server) (id : Int) (msg : List Byte) (h : Handle)
    (e : Error) (hget : (s.clients.Get id).2 = some h)
    (hok : s.handleOk { id := id, item := some h } = true)
    (hw : env.write s.trace h (AppendDelimeter msg) = some e) :
    s.Send env id msg =
      some ({ s with
                clients := if s.proto = Udp then (s.clients.Delete id).1 else s.clients,
                trace := s.trace ++ .write h (AppendDelimeter msg) (some e) ::
                  (if s.proto = Udp then [.disconnected id] else []) }, some e) := by
  unfold Server.Send
  rw [hget]
  cases h with
  | conn c =>
    have hp : s.proto = Tcp ∨ s.proto = Tls ∨ s.proto = Unix := by
      simpa [Server.handleOk] using hok
    have hnu : s.proto ≠ Udp := by
      intro hu
      rw [hu] at hp
      exact Udp_not_stream hp
    simp [hp, hw, hnu]
  | addr a =>
    have hp : s.proto = Udp ∧ s.udpListener = true := by
      simpa [Server.handleOk] using hok
    have hns : ¬ Udp = Tcp ∧ ¬ Udp = Tls ∧ ¬ Udp = Unix := by decide
    simp [hns, hp.1, hp.2, hw]

theorem WF_trace (s : Server) (t : List Effect) (hwf : s.WF) :
    ({ s with trace := t } : Server).WF := by
  obtain ⟨h1, h2⟩ := hwf
  refine ⟨h1, ?_⟩
  have hfun : ({ s with trace := t } : Server).handleOk = s.handleOk := by
    funext c
    simp [Server.handleOk]
  simpa [hfun] using h2

/-! ### Broadcast -/

theorem broadcastLoop_spec (env : Env) (msg : List Byte) (rest : List Int) (s : Server)
    (hwf : s.WF) (hin : ∀ id ∈ rest, id ∈ s.clients.GetIds) :
    ∃ (k : Nat) (hs : List Handle) (s' : Server) (err : Option Error),
      broadcastLoop env msg rest s = some (s', err) ∧
      k ≤ rest.length ∧
      (rest.take k).map (fun id => (s.clients.Get id).2) = hs.map some ∧
      (∀ i h, hs[i]? = some h →
        env.write
          (s.trace ++ (hs.take i).map (fun t => Effect.write t (AppendDelimeter msg) none))
          h (AppendDelimeter msg) = none) ∧
      ((k = rest.length ∧ err = none ∧
          s' = { s with trace := s.trace ++
                  hs.map (fun t => Effect.write t (AppendDelimeter msg) none) }) ∨
       (∃ id h e, rest[k]? = some id ∧ (s.clients.Get id).2 = some h ∧
          env.write (s.trace ++ hs.map (fun t => Effect.write t (AppendDelimeter msg) none))
            h (AppendDelimeter msg) = some e ∧
          err = some e ∧
          s' = { s with
                  clients := if s.proto = Udp then (s.clients.Delete id).1 else s.clients,
                  trace := (s.trace ++
                    hs.map (fun t => Effect.write t (AppendDelimeter msg) none)) ++
                    .write h (AppendDelimeter msg) (some e) ::
                      (if s.proto = Udp then [.disconnected id] else []) })) := by
  induction rest generalizing s with
  | nil =>
    refine ⟨0, [], s, none, rfl, le_refl _, rfl, ?_, Or.inl ⟨rfl, rfl, ?_⟩⟩
    · intro i h hi
      simp at hi
    · simp
  | cons id rest ih =>
    obtain ⟨h, hget, hok⟩ := WF_handle s hwf id (hin id (List.mem_cons_self _ _))
    cases hw : env.write s.trace h (AppendDelimeter msg) with
    | some e =>
      refine ⟨0, [],
        { s with
            clients := if s.proto = Udp then (s.clients.Delete id).1 else s.clients,
            trace := s.trace ++ .write h (AppendDelimeter msg) (some e) ::
              (if s.proto = Udp then [.disconnected id] else []) },
        some e, ?_, Nat.zero_le _, rfl, ?_, Or.inr ⟨id, h, e, by simp, hget, ?_, rfl, ?_⟩⟩
      · rw [broadcastLoop, Send_fail env s id msg h e hget hok hw]
      · intro i h' hi
        simp at hi
      · simpa using hw
      · simp
    | none =>
      have hsend := Send_ok env s id msg h hget hok hw
      have hwf1 := WF_trace s (s.trace ++ [.write h (AppendDelimeter msg) none]) hwf
      obtain ⟨k, hs, s', err, hloop, hk, hmap, hsucc, hcase⟩ :=
        ih { s with trace := s.trace ++ [.write h (AppendDelimeter msg) none] } hwf1
          (fun j hj => hin j (List.mem_cons_of_mem _ hj))
      refine ⟨k + 1, h :: hs, s', err, ?_, ?_, ?_, ?_, ?_⟩
      · rw [broadcastLoop, hsend]
        exact hloop
      · simpa using hk
      · simp only [List.take_succ_cons, List.map_cons, hget]
        exact congrArg _ hmap
      · intro i h' hi
        cases i with
        | zero =>
          simp at hi
          subst hi
          simpa using hw
        | succ i =>
          have h1 := hsucc i h' (by simpa using hi)
          simpa [List.append_assoc] using h1
      · rcases hcase with ⟨hk', herr, hs'⟩ | ⟨id', h', e, hk', hget', hw', herr, hs'⟩
        · refine Or.inl ⟨by simp [hk'], herr, ?_⟩
          rw [hs']
          simp [List.append_assoc]
        · refine Or.inr ⟨id', h', e, by simpa using hk', hget', ?_, herr, ?_⟩
          · simpa [List.append_assoc] using hw'
          · rw [hs']
            simp [List.append_assoc]

/-- C9: on a server whose list satisfies the server invariant (`WF`), `Broadcast`
does not fail at runtime and sends to the ids of `GetIds()` in that order, stopping
at the first failure.  There are `k` and the handles `hs` of the first `k` ids
such that the writes to `hs`, each of the framed payload `msg ++ [0x00]`, succeeded
one after the other, and either `k` is the number of ids, no error is returned and
the trace grew by exactly these `k` successful writes (one per registered id, the
ids being distinct); or the write to the handle of the `k`-th id failed with `e`,
`Broadcast` returns exactly `e`, and the trace grew by the `k` successful writes,
the failed write (and `Disconnected(id)` on a UDP server) and nothing for any
later id. -/
theorem Broadcast_fail_fast (env : Env) (s : Server) (msg : List Byte) (hwf : s.WF) :
    ∃ (k : Nat) (hs : List Handle) (s' : Server) (err : Option Error),
      s.Broadcast env msg = some (s', err) ∧
      k ≤ s.clients.GetIds.length ∧
      (s.clients.GetIds.take k).Nodup ∧
      (s.clients.GetIds.take k).map (fun id => (s.clients.Get id).2) = hs.map some ∧
      (∀ i h, hs[i]? = some h →
        env.write
          (s.trace ++ (hs.take i).map (fun t => Effect.write t (msg ++ [0x00]) none))
          h (msg ++ [0x00]) = none) ∧
      ((k = s.clients.GetIds.length ∧ err = none ∧ s'.clients = s.clients ∧
          s'.trace = s.trace ++ hs.map (fun t => Effect.write t (msg ++ [0x00]) none)) ∨
       (∃ id h e, s.clients.GetIds[k]? = some id ∧ (s.clients.Get id).2 = some h ∧
          env.write (s.trace ++ hs.map (fun t => Effect.write t (msg ++ [0x00]) none))
            h (msg ++ [0x00]) = some e ∧
          err = some e ∧
          s'.trace = (s.trace ++ hs.map (fun t => Effect.write t (msg ++ [0x00]) none)) ++
            .write h (msg ++ [0x00]) (some e) ::
              (if s.proto = Udp then [.disconnected id] else []))) := by
  obtain ⟨k, hs, s', err, hloop, hk, hmap, hsucc, hcase⟩ :=
    broadcastLoop_spec env msg s.clients.GetIds s hwf (fun _ h => h)
  refine ⟨k, hs, s', err, hloop, hk, hwf.1.sublist (List.take_sublist _ _), hmap, hsucc, ?_⟩
  rcases hcase with ⟨hk', herr, hs'⟩ | ⟨id, h, e, hk', hget, hw, herr, hs'⟩
  · exact Or.inl ⟨hk', herr, by rw [hs'], by rw [hs']; rfl⟩
  · exact Or.inr ⟨id, h, e, hk', hget, hw, herr, by rw [hs']; rfl⟩

/-- C10: for every server state, payload and id that is not in the list,
`Send(id, payload)` returns the error "no connection with given id" and leaves the
whole state as it was: the trace (no write, no handler call) and the list. -/
theorem Send_unknown_peer (env : Env) (s : Server) (id : Int) (msg : List Byte)
    (hid : s.clients.Exist id = false) :
    s.Send env id msg = some (s, some "no connection with given id") := by
  apply Send_absent
  intro hmem
  rw [(Exist_iff s.clients id).mpr hmem] at hid
  exact Bool.noConfusion hid

/-- Witness for C9: three registered peers, the write to the second one fails;
`Broadcast` returns that error after one successful write and the failed one, and
nothing is written to the third peer. -/
theorem Broadcast_fail_fast_witness :
    threePeers.WF ∧
    (∃ (k : Nat) (s' : Server) (err : Option Error),
      threePeers.Broadcast secondClosed [104, 105] = some (s', err) ∧
      k ≤ threePeers.clients.GetIds.length) ∧
    threePeers.Broadcast secondClosed [104, 105] =
      some ({ threePeers with
                trace := [.write (.conn 1) [104, 105, 0] none,
                          .write (.conn 2) [104, 105, 0] (some "use of closed network connection")] },
            some "use of closed network connection") := by
  refine ⟨by decide, ?_, by decide⟩
  obtain ⟨k, _, s', err, h1, h2, _⟩ :=
    Broadcast_fail_fast secondClosed threePeers [104, 105] (by decide)
  exact ⟨k, s', err, h1, h2⟩

/-- Witness for C10: id `99` is not among the three registered peers. -/
theorem Send_unknown_peer_witness :
    threePeers.clients.Exist 99 = false ∧
    threePeers.Send secondClosed 99 [104, 105] =
      some (threePeers, some "no connection with given id") :=
  ⟨by decide, Send_unknown_peer secondClosed threePeers 99 [104, 105] (by decide)⟩

/-! ### The server invariant is kept -/

theorem AddOrUpdate_items_mem (l : IdList Handle) (id : Int) (h : Option Handle)
    (c : Item Handle) (hc : c ∈ (l.AddOrUpdate id h).items) :
    c ∈ l.items ∨ c = { id := id, item := h } := by
  by_cases hid : id ∈ l.GetIds
  · obtain ⟨a, e, b, hx, he, ha⟩ := split_first id l.items ((mem_GetIds_iff l id).mp hid)
    rw [AddOrUpdate_split l id h a e b hx he ha] at hc
    rw [hx]
    rcases List.mem_append.mp hc with hc | hc
    · exact Or.inl (List.mem_append_left _ hc)
    · rcases List.mem_cons.mp hc with hc | hc
      · exact Or.inr (by rw [hc, he])
      · exact Or.inl (List.mem_append_right _ (List.mem_cons_of_mem _ hc))
  · rw [AddOrUpdate_absent l id h hid] at hc
    rcases List.mem_append.mp hc with hc | hc
    · exact Or.inl hc
    · exact Or.inr (by simpa using hc)

theorem WF_NewServer (protocol : Protocol) : (NewServer protocol).WF := by
  simp [Server.WF, NewServer, NewList, IdList.GetIds]

theorem WF_registerConn (s : Server) (id : Int) (c : Nat) (hwf : s.WF)
    (hp : s.proto = Tcp ∨ s.proto = Tls ∨ s.proto = Unix) : (s.registerConn id c).WF := by
  refine ⟨AddOrUpdate_nodup s.clients id _ hwf.1, ?_⟩
  rw [List.all_eq_true]
  intro d hd
  rcases AddOrUpdate_items_mem s.clients id _ d hd with hd | hd
  · have := (List.all_eq_true.mp hwf.2) d hd
    simpa [Server.handleOk, Server.registerConn] using this
  · rw [hd]
    simpa [Server.handleOk, Server.registerConn] using hp

theorem WF_registerAddr (s : Server) (id : Int) (a : Nat) (hwf : s.WF)
    (hp : s.proto = Udp) (hl : s.udpListener = true) : (s.registerAddr id a).WF := by
  refine ⟨AddOrUpdate_nodup s.clients id _ hwf.1, ?_⟩
  rw [List.all_eq_true]
  intro d hd
  rcases AddOrUpdate_items_mem s.clients id _ d hd with hd | hd
  · have := (List.all_eq_true.mp hwf.2) d hd
    simpa [Server.handleOk, Server.registerAddr] using this
  · rw [hd]
    simp [Server.handleOk, Server.registerAddr, hp, hl]

/-- `Send` never fails at runtime on a well-formed server and keeps it well-formed. -/
theorem WF_Send (env : Env) (s : Server) (id : Int) (msg : List Byte) (hwf : s.WF) :
    ∃ s' err, s.Send env id msg = some (s', err) ∧ s'.WF := by
  by_cases hid : id ∈ s.clients.GetIds
  · obtain ⟨h, hget, hok⟩ := WF_handle s hwf id hid
    cases hw : env.write s.trace h (AppendDelimeter msg) with
    | none => exact ⟨_, _, Send_ok env s id msg h hget hok hw, WF_trace s _ hwf⟩
    | some e =>
      refine ⟨_, _, Send_fail env s id msg h e hget hok hw, ?_⟩
      by_cases hu : s.proto = Udp
      · obtain ⟨hn', _, hmem, _⟩ := Delete_items s.clients id hwf.1
        refine ⟨by simpa [hu] using hn', ?_⟩
        rw [List.all_eq_true]
        intro d hd
        have hd' : d ∈ s.clients.items := ((hmem d).mp (by simpa [hu] using hd)).1
        have := (List.all_eq_true.mp hwf.2) d hd'
        simpa [Server.handleOk] using this
      · refine ⟨by simpa [hu] using hwf.1, ?_⟩
        rw [List.all_eq_true]
        intro d hd
        have hd' : d ∈ s.clients.items := by simpa [hu] using hd
        have := (List.all_eq_true.mp hwf.2) d hd'
        simpa [Server.handleOk] using this
  · exact ⟨s, _, Send_absent env s id msg hid, hwf⟩

end socket

namespace containers

/-! ### The repository's own test, replayed on the embedding -/

/-- The steps of `TestContainersUniqueIdList` (handles `34.2345`, `3412`,
`"hi there"`, `"HelloWorld"` numbered 1 to 4): every check of the test holds. -/
theorem TestContainersUniqueIdList_replay :
    (NewList : IdList Nat).GetIds.length = 0 ∧
    ((NewList : IdList Nat).AddOrUpdate 1234 (some 1)).GetIds = [1234] ∧
    ((NewList : IdList Nat).AddOrUpdate 1234 (some 1)).Get 1234 = (0, some 1) ∧
    (runOps [.addOrUpdate 1234 (some 1), .addOrUpdate 3312 (some 2),
      .addOrUpdate 2212 (some 3), .addOrUpdate 2212 (some 4)]
      (NewList : IdList Nat)).items =
      [{ id := 1234, item := some 1 }, { id := 3312, item := some 2 },
       { id := 2212, item := some 4 }] ∧
    (runOps [.addOrUpdate 1234 (some 1), .addOrUpdate 3312 (some 2),
      .addOrUpdate 2212 (some 3), .addOrUpdate 2212 (some 4), .delete 3312]
      (NewList : IdList Nat)).items =
      [{ id := 1234, item := some 1 }, { id := 2212, item := some 4 }] ∧
    ((runOps [.addOrUpdate 1234 (some 1), .addOrUpdate 3312 (some 2),
      .addOrUpdate 2212 (some 3), .addOrUpdate 2212 (some 4), .delete 3312]
      (NewList : IdList Nat)).Get 3312).2 = none ∧
    (runOps [.addOrUpdate 1234 (some 1), .addOrUpdate 3312 (some 2),
      .addOrUpdate 2212 (some 3), .addOrUpdate 2212 (some 4), .delete 3312, .reset]
      (NewList : IdList Nat)).GetIds.length = 0 := by
  decide

end containers

namespace connection

/-! ### TruncateDelimeter on any input -/

theorem TruncateDelimeter_eq (raw : List Byte) :
    TruncateDelimeter raw = if raw = [] then none else some raw.dropLast := by
  unfold TruncateDelimeter
  cases raw with
  | nil => simp
  | cons b rest =>
    have hlen : (((b :: rest).length : Int) - 1) = (rest.length : Int) := by simp
    rw [hlen, List.dropLast_eq_take]
    simp

/-- C20, as the code has it: `TruncateDelimeter` has no guard.  For the empty byte
sequence the slice bound is `-1` and the call fails at runtime; for every
non-empty input it returns the input without its last byte. -/
theorem TruncateDelimeter_unguarded (raw : List Byte) :
    TruncateDelimeter raw = (if raw = [] then none else some raw.dropLast) ∧
    (TruncateDelimeter raw).isSome = !raw.isEmpty := by
  rw [TruncateDelimeter_eq]
  cases raw <;> simp

/-- C20 fails as stated: on the empty byte sequence `TruncateDelimeter` fails at
runtime. -/
theorem TruncateDelimeter_empty_fails : TruncateDelimeter [] = none := by
  decide

end connection

namespace socket

open connection containers

/-! ### The client -/

theorem Client_Send_conn (env : Env) (c : Client) (n : Nat) (msg : List Byte)
    (hc : c.conn = some (.live n)) :
    c.Send env msg =
      some ({ c with trace := c.trace ++ [.write (.conn n) (msg ++ [0x00])
                       (env.write c.trace (.conn n) (msg ++ [0x00]))] },
            env.write c.trace (.conn n) (msg ++ [0x00])) := by
  unfold Client.Send
  rw [hc]
  rfl

/-- What `Send` does by the value of `c.conn`.  With the nil interface (a
`NewClient`, or a client whose `Connect` failed in the address resolution) it
returns "not connected" and changes nothing; with a connection `n` it makes exactly
one write, of the payload followed by one `0x00` byte, and returns the error of
that write unmodified; with the nil pointer of a failed dial it fails at runtime. -/
theorem Client_Send_by_conn (env : Env) (protocol : Protocol) (c : Client) (n : Nat)
    (e : Error) (msg : List Byte) :
    (NewClient protocol).Send env msg = some (NewClient protocol, some "not connected") ∧
    ({ c with conn := none } : Client).Send env msg =
      some ({ c with conn := none }, some "not connected") ∧
    ({ c with conn := some (.live n) } : Client).Send env msg =
      some ({ c with conn := some (.live n),
                     trace := c.trace ++ [.write (.conn n) (msg ++ [0x00])
                       (env.write c.trace (.conn n) (msg ++ [0x00]))] },
            env.write c.trace (.conn n) (msg ++ [0x00])) ∧
    ({ c with conn := some .nilPointer } : Client).Send env msg = none ∧
    ((c.Connect none (some e)).1.conn = none ∨ (c.Connect none (some e)).1.conn = c.conn) ∧
    ((c.proto = Tcp ∨ c.proto = Udp ∨ c.proto = Tls ∨ c.proto = Unix) →
      c.Connect (some .nilPointer) (some e) =
        ({ c with interrupted := false, conn := some .nilPointer }, some e) ∧
      (c.Connect (some .nilPointer) (some e)).1.Send env msg = none) := by
  refine ⟨rfl, rfl, rfl, rfl, ?_, ?_⟩
  · unfold Client.Connect
    by_cases hp : c.proto = Tcp ∨ c.proto = Udp ∨ c.proto = Tls ∨ c.proto = Unix
    · rw [if_pos hp]
      exact Or.inl rfl
    · rw [if_neg hp]
      exact Or.inr rfl
  · intro hp
    have h : c.Connect (some .nilPointer) (some e) =
        ({ c with interrupted := false, conn := some .nilPointer }, some e) := by
      unfold Client.Connect
      rw [if_pos hp]
    exact ⟨h, by rw [h]; rfl⟩

/-- C11 fails on the code: a TCP client that has never connected, because the dial
of its only `Connect` was refused, holds the nil pointer `net.DialTCP` returned in
`c.conn`; `connected` is false, yet the test `c.conn == nil` of `Send` is false and
`c.conn.Write` fails at runtime instead of returning "not connected".  (A
`NewClient` does return "not connected".) -/
theorem Client_Send_after_failed_dial :
    (NewClient Tcp).Connect (some .nilPointer) (some "connection refused") =
      (refused, some "connection refused") ∧
    refused = { proto := Tcp, conn := some .nilPointer, connected := false,
                interrupted := false, trace := [] } ∧
    refused.Send secondClosed [104, 105] = none ∧
    (NewClient Tcp).Send secondClosed [104, 105] =
      some (NewClient Tcp, some "not connected") := by
  decide

/-- On frames with a non-empty payload the read loop delivers every payload, in
order, and ends at the read error. -/
theorem frameLoop_payloads (id : Int) (ps : List (List Byte)) (t : List Effect)
    (hne : ∀ p ∈ ps, p ≠ []) :
    frameLoop id (ps.map (fun p => p ++ [0x00])) t =
      .done (t ++ ps.map (fun p => Effect.received id p)) := by
  induction ps generalizing t with
  | nil => simp [frameLoop]
  | cons p rest ih =>
    have hp : p ≠ [] := hne p (List.mem_cons_self _ _)
    have htr : TruncateDelimeter (p ++ [0x00]) = some p := by
      rw [TruncateDelimeter_eq]
      simp
    have hlen : ¬ ((p.length : Int) - 1 < 0) := by
      have : 0 < p.length := List.length_pos.mpr hp
      omega
    rw [List.map_cons, frameLoop, htr]
    simp only [hlen, if_false]
    rw [ih _ (fun q hq => hne q (List.mem_cons_of_mem _ hq))]
    simp

/-- A frame that is the sentinel alone stops the loop with a runtime failure,
before `Received` is called for it. -/
theorem frameLoop_sentinel_only (id : Int) (rest : List (List Byte)) (t : List Effect) :
    frameLoop id ([0x00] :: rest) t = .failed t := by
  rw [frameLoop]
  rfl

/-- On a client with a connection and `interrupted` false, `reader` over frames
with non-empty payloads returns, with the handler calls in order. -/
theorem reader_payloads (c : Client) (n : Nat) (ps : List (List Byte))
    (hc : c.conn = some (.live n)) (hi : c.interrupted = false) (hne : ∀ p ∈ ps, p ≠ []) :
    c.reader (ps.map (fun p => p ++ [0x00])) =
      .done { c with
                connected := false,
                trace := c.trace ++ Effect.connected 1 ::
                  (ps.map (fun p => Effect.received 1 p) ++
                    [Effect.disconnected 1, Effect.connClose n]) } := by
  unfold Client.reader
  rw [hc, hi]
  simp only [Bool.false_eq_true, if_false]
  rw [frameLoop_payloads 1 ps _ hne]
  simp

/-- C13: for a client with an open connection and `interrupted` false, and every
finite sequence of frames, each a non-empty payload followed by `0x00`, followed by
a read error, `reader` returns and the handler gets exactly `Connected(1)`, then
`Received(1, p)` for each payload in order, then `Disconnected(1)`; the connection
is closed after that. -/
theorem Client_reader_event_order (c : Client) (n : Nat) (ps : List (List Byte))
    (hc : c.conn = some (.live n)) (hi : c.interrupted = false) (hne : ∀ p ∈ ps, p ≠ []) :
    c.reader (ps.map (fun p => p ++ [0x00])) =
      .done { c with
                connected := false,
                trace := c.trace ++ Effect.connected 1 ::
                  (ps.map (fun p => Effect.received 1 p) ++
                    [Effect.disconnected 1, Effect.connClose n]) } :=
  reader_payloads c n ps hc hi hne

/-- Witness for C13: two frames, "hi" and "!", on a client connected over TCP. -/
theorem Client_reader_event_order_witness :
    ((NewClient Tcp).Connect (some (.live 2)) none).1.reader [[104, 105, 0], [33, 0]] =
      .done { proto := Tcp, conn := some (.live 2), connected := false, interrupted := false,
              trace := [.spawn .reader, .connected 1, .received 1 [104, 105],
                        .received 1 [33], .disconnected 1, .connClose 2] } :=
  Client_reader_event_order ((NewClient Tcp).Connect (some (.live 2)) none).1 2
    [[104, 105], [33]]
    (by decide) (by decide) (by decide)

/-- C14 fails on the code: a frame that is the sentinel alone makes the client read
loop and the server read loop fail at runtime, on the second slice
`msg[:len(msg)-1]` in the `log.Fine` argument, without `Received` being called. -/
theorem sentinel_only_frame_fails :
    ((NewClient Tcp).Connect (some (.live 2)) none).1.reader [[0x00]] =
      .failed { proto := Tcp, conn := some (.live 2), connected := true, interrupted := false,
                trace := [.spawn .reader, .connected 1, .disconnected 1, .connClose 2] } ∧
    threePeers.clientHandler 1 11 [[0x00]] =
      .failed { threePeers with
                  trace := [.connected 11, .disconnected 11, .connClose 1] } := by
  decide

/-! ### Send after the client was disconnected -/

theorem Connect_ok (c0 c1 : Client) (n : Nat)
    (hconn : c0.Connect (some (.live n)) none = (c1, none)) :
    c1 = { c0 with interrupted := false, conn := some (.live n), connected := true,
                   trace := c0.trace ++ [.spawn .reader] } := by
  unfold Client.Connect at hconn
  by_cases hp : c0.proto = Tcp ∨ c0.proto = Udp ∨ c0.proto = Tls ∨ c0.proto = Unix
  · rw [if_pos hp] at hconn
    exact (Prod.mk.inj hconn).1.symm
  · rw [if_neg hp] at hconn
    exact absurd (Prod.mk.inj hconn).2 (by simp)

/-- `reader` never assigns `c.conn`; when it returns, `connected` is false. -/
theorem reader_done_conn (c c2 : Client) (frames : List (List Byte))
    (h : c.reader frames = .done c2) : c2.conn = c.conn ∧ c2.connected = false := by
  unfold Client.reader at h
  cases hc : c.conn with
  | none => rw [hc] at h; cases h
  | some v =>
    cases v with
    | nilPointer =>
      rw [hc] at h
      simp only at h
      split at h <;> cases h
    | live n =>
      rw [hc] at h
      simp only at h
      split at h
      · cases h
        exact ⟨rfl, rfl⟩
      · cases h

/-- With `interrupted` set the read loop is not entered: `reader` returns. -/
theorem reader_interrupted (c : Client) (n : Nat) (frames : List (List Byte))
    (hc : c.conn = some (.live n)) (hi : c.interrupted = true) :
    c.reader frames =
      .done { c with connected := false,
                     trace := c.trace ++ [.connected 1, .disconnected 1, .connClose n] } := by
  unfold Client.reader
  rw [hc, hi]
  simp

/-- `Disconnect` on a client holding a connection: the flag is set, the connection
closed, and what `Close` returned is returned; `conn` is not assigned. -/
theorem Disconnect_live (c : Client) (n : Nat) (closeErr : Option Error)
    (hc : c.conn = some (.live n)) :
    c.Disconnect closeErr =
      some ({ c with interrupted := true, trace := c.trace ++ [.connClose n] }, closeErr) := by
  unfold Client.Disconnect
  rw [hc]

/-- C12, as the code has it: after a successful `Connect` that dialled the
connection `n`, in each of the three orders in which the client gets disconnected
(the read loop exits on a read error; the read loop exits on a read error and
`Disconnect` then runs; `Disconnect` runs and the read loop then exits),
`connected` is false but `conn` still holds `n`, and `Send` makes exactly one
write of the payload followed by `0x00` on that connection and returns the error
of the write unmodified. -/
theorem Client_Send_after_disconnect (env : Env) (c0 c1 : Client) (n : Nat)
    (ps frames : List (List Byte)) (closeErr : Option Error) (msg : List Byte)
    (hconn : c0.Connect (some (.live n)) none = (c1, none)) (hne : ∀ p ∈ ps, p ≠ []) :
    (∃ c2, c1.reader (ps.map (fun p => p ++ [0x00])) = .done c2 ∧
      c2.conn = some (.live n) ∧ c2.connected = false ∧
      c2.Send env msg =
        some ({ c2 with trace := c2.trace ++ [.write (.conn n) (msg ++ [0x00])
                         (env.write c2.trace (.conn n) (msg ++ [0x00]))] },
              env.write c2.trace (.conn n) (msg ++ [0x00])) ∧
      ∃ c3, c2.Disconnect closeErr = some (c3, closeErr) ∧
        c3.conn = some (.live n) ∧ c3.connected = false ∧
        c3.Send env msg =
          some ({ c3 with trace := c3.trace ++ [.write (.conn n) (msg ++ [0x00])
                           (env.write c3.trace (.conn n) (msg ++ [0x00]))] },
                env.write c3.trace (.conn n) (msg ++ [0x00]))) ∧
    (∃ c2 c3, c1.Disconnect closeErr = some (c2, closeErr) ∧ c2.reader frames = .done c3 ∧
      c3.conn = some (.live n) ∧ c3.connected = false ∧
      c3.Send env msg =
        some ({ c3 with trace := c3.trace ++ [.write (.conn n) (msg ++ [0x00])
                         (env.write c3.trace (.conn n) (msg ++ [0x00]))] },
              env.write c3.trace (.conn n) (msg ++ [0x00]))) := by
  have h1 := Connect_ok c0 c1 n hconn
  have hc1 : c1.conn = some (.live n) := by rw [h1]
  have hi1 : c1.interrupted = false := by rw [h1]
  constructor
  · have hr := reader_payloads c1 n ps hc1 hi1 hne
    obtain ⟨hconn2, hcd2⟩ := reader_done_conn c1 _ _ hr
    have hc2 := hconn2.trans hc1
    refine ⟨_, hr, hc2, hcd2, Client_Send_conn env _ n msg hc2, ?_⟩
    exact ⟨_, Disconnect_live _ n closeErr hc2, hc2, hcd2, Client_Send_conn env _ n msg hc2⟩
  · have hd := Disconnect_live c1 n closeErr hc1
    have hr := reader_interrupted
      { c1 with interrupted := true, trace := c1.trace ++ [.connClose n] } n frames hc1 rfl
    obtain ⟨hconn3, hcd3⟩ := reader_done_conn _ _ _ hr
    exact ⟨_, _, hd, hr, hconn3.trans hc1, hcd3,
      Client_Send_conn env _ n msg (hconn3.trans hc1)⟩

/-- Witness for the amended C12: a TCP client that dialled connection `2`. -/
theorem Client_Send_after_disconnect_witness :
    (NewClient Tcp).Connect (some (.live 2)) none = (dialled, none) ∧
    (∃ c2 c3, dialled.Disconnect none = some (c2, none) ∧ dialled.reader [] = .done c3 ∧
      c2.conn = some (.live 2) ∧ c3.conn = some (.live 2)) := by
  refine ⟨by decide, ?_⟩
  obtain ⟨⟨c3, h3, hc3, _⟩, ⟨c2, c4, h2, h4, hc4, _⟩⟩ :=
    Client_Send_after_disconnect secondClosed (NewClient Tcp) dialled 2 [] [] none [104, 105]
      (by decide) (by decide)
  refine ⟨c2, c3, h2, h3, ?_, hc3⟩
  have hc := reader_done_conn c2 c4 [] h4
  rw [← hc.1, hc4]

/-- C12 fails as stated: a TCP client connects, its read loop exits on a read
error (first case), or `Disconnect` runs and the read loop exits (second case);
`connected` is false, yet `Send` does not return "not connected": it writes the
framed payload to the closed connection and returns the error of that write. -/
theorem Client_Send_after_disconnect_counterexample :
    (NewClient Tcp).Connect (some (.live 2)) none = (dialled, none) ∧
    dialled.reader [] =
      .done { dialled with connected := false,
                           trace := [.spawn .reader, .connected 1, .disconnected 1,
                                     .connClose 2] } ∧
    ({ dialled with connected := false,
                    trace := [.spawn .reader, .connected 1, .disconnected 1,
                              .connClose 2] } : Client).Send secondClosed [104, 105] =
      some ({ dialled with connected := false,
                           trace := [.spawn .reader, .connected 1, .disconnected 1,
                                     .connClose 2,
                                     .write (.conn 2) [104, 105, 0]
                                       (some "use of closed network connection")] },
            some "use of closed network connection") ∧
    dialled.Disconnect none =
      some ({ dialled with interrupted := true,
                           trace := [.spawn .reader, .connClose 2] }, none) ∧
    ({ dialled with interrupted := true,
                    trace := [.spawn .reader, .connClose 2] } : Client).reader [] =
      .done { dialled with connected := false, interrupted := true,
                           trace := [.spawn .reader, .connClose 2, .connected 1,
                                     .disconnected 1, .connClose 2] } ∧
    ({ dialled with connected := false, interrupted := true,
                    trace := [.spawn .reader, .connClose 2, .connected 1,
                              .disconnected 1, .connClose 2] } : Client).Send
        secondClosed [104, 105] =
      some ({ dialled with connected := false, interrupted := true,
                           trace := [.spawn .reader, .connClose 2, .connected 1,
                                     .disconnected 1, .connClose 2,
                                     .write (.conn 2) [104, 105, 0]
                                       (some "use of closed network connection")] },
            some "use of closed network connection") := by
  decide

/-! ### The UDP read loop -/

theorem listenUdpLoop_framed (reads : List (Int × Nat × List Byte)) (s : Server)
    (hlen : ∀ r ∈ reads, r.2.2.length + 1 ≤ 1024) :
    listenUdpLoop (reads.map (fun r => (r.1, r.2.1, r.2.2 ++ [0x00]))) s =
      .done { s with
                clients := reads.foldl
                  (fun l r => l.AddOrUpdate r.1 (some (.addr r.2.1))) s.clients,
                trace := s.trace ++ reads.flatMap
                  (fun r => [Effect.connected r.1, Effect.received r.1 r.2.2]) } := by
  induction reads generalizing s with
  | nil => simp [listenUdpLoop]
  | cons r rest ih =>
    obtain ⟨id, a, p⟩ := r
    have hp : p.length + 1 ≤ 1024 := hlen (id, a, p) (List.mem_cons_self _ _)
    have hmin : min (p ++ [(0x00 : Byte)]).length 1024 = p.length + 1 := by
      simp only [List.length_append, List.length_singleton]
      omega
    rw [List.map_cons, listenUdpLoop]
    simp only [hmin]
    have hn : ¬ (((p.length + 1 : Nat) : Int) - 1 < 0) := by omega
    rw [if_neg hn]
    have htake : (((p.length + 1 : Nat) : Int) - 1).toNat = p.length := by omega
    rw [htake, List.take_left,
      ih _ (fun q hq => hlen q (List.mem_cons_of_mem _ hq))]
    simp [Server.registerAddr, List.flatMap_cons, List.append_assoc]

/-- C15: on a UDP server that is reading (`interrupted` false, socket set), for
every sequence of datagrams, each a payload `p` with `len(p)+1 <= 1024` followed by
`0x00`, the loop does not fail; it registers every sender with `AddOrUpdate` under
the derived id, in order, and for each datagram the handler gets `Connected(id)`
followed by `Received(id, p)` with `p` verbatim: one `Connected` per datagram,
whether or not the id was registered before. -/
theorem listenUdp_dispatch (s : Server) (reads : List (Int × Nat × List Byte))
    (hi : s.interrupted = false) (hl : s.udpListener = true)
    (hlen : ∀ r ∈ reads, r.2.2.length + 1 ≤ 1024) :
    s.listenUdp (reads.map (fun r => (r.1, r.2.1, r.2.2 ++ [0x00]))) =
      .done { s with
                clients := reads.foldl
                  (fun l r => l.AddOrUpdate r.1 (some (.addr r.2.1))) s.clients,
                trace := s.trace ++ reads.flatMap
                  (fun r => [Effect.connected r.1, Effect.received r.1 r.2.2]) } := by
  unfold Server.listenUdp
  rw [if_neg (by simp [hi]), if_pos hl]
  exact listenUdpLoop_framed reads s hlen

/-- Witness for C15: "hi" twice from the same id and once from another. -/
theorem listenUdp_dispatch_witness :
    udpUp.listenUdp [(7, 1, [104, 105, 0]), (7, 2, [104, 105, 0]), (9, 3, [33, 0])] =
      .done { udpUp with
                clients := { items := [{ id := 7, item := some (.addr 2) },
                                       { id := 9, item := some (.addr 3) }] },
                trace := udpUp.trace ++
                  [.connected 7, .received 7 [104, 105], .connected 7, .received 7 [104, 105],
                   .connected 9, .received 9 [33]] } :=
  listenUdp_dispatch udpUp [(7, 1, [104, 105]), (7, 2, [104, 105]), (9, 3, [33])]
    (by decide) (by decide) (by decide)

end socket

namespace containers

variable {α : Type}

/-! ### The two critical sections of AddOrUpdate and Delete -/

/-- Run without anything in between, the two critical sections of `AddOrUpdate`
are the sequential `AddOrUpdate`. -/
theorem addOrUpdateCommit_own_index (l : IdList α) (id : Int) (item : Option α) :
    l.addOrUpdateCommit (l.Get id).1 id item = some (l.AddOrUpdate id item) := by
  unfold IdList.addOrUpdateCommit IdList.AddOrUpdate
  by_cases hid : id ∈ l.GetIds
  · obtain ⟨a, e, b, hx, he, ha⟩ := split_first id l.items ((mem_GetIds_iff l id).mp hid)
    rw [Get_of_split l id a e b hx he ha]
    simp [hx]
  · rw [Get_of_not_mem l id hid]
    simp

/-- Run without anything in between, the two critical sections of `Delete` are the
sequential `Delete`. -/
theorem deleteCommit_own_index (l : IdList α) (id : Int) (hid : id ∈ l.GetIds) :
    l.deleteCommit (l.Get id).1 = some (l.Delete id).1 := by
  rcases Delete_cases l id with ⟨hn, _⟩ | ⟨a, e, hx, he, ha, hd⟩ | ⟨a, e, b, z, hx, he, ha, hd⟩
  · exact absurd hid hn
  · rw [hd, Get_of_split l id a e [] hx he ha]
    unfold IdList.deleteCommit
    simp [hx]
  · rw [hd, Get_of_split l id a e (b ++ [z]) hx he ha]
    unfold IdList.deleteCommit
    have hlen : l.items.length - 1 = (a ++ z :: b).length := by
      rw [hx]; simp
    have hassoc : a ++ e :: (b ++ [z]) = (a ++ e :: b) ++ [z] := by simp
    have hlast : l.items[l.items.length - 1]? = some z := by
      rw [← List.getLast?_eq_getElem?, hx, hassoc, List.getLast?_append]
      simp
    have hset : l.items.set a.length z = (a ++ z :: b) ++ [z] := by
      rw [hx]; simp
    have hlt : a.length < l.items.length := by
      rw [hx]; simp
    simp only [hlast, Int.toNat_ofNat, hlt, if_true, hset]
    rw [hlen, List.take_left]

/-- C19 fails on the code: the lock is released between the `Get` of `AddOrUpdate`
or `Delete` and the critical section that uses the index.  (1) Two `AddOrUpdate`
for the absent id 7 that both run `Get` (index -1) before either appends leave two
entries for 7.  (2) On the list with ids 1, 2: `Delete(2)` reads index 1,
`Delete(1)` runs in full, then `Delete(2)` indexes out of range and fails.  (3) On
the list with ids 1, 2, 3: `Delete(3)` reads index 2, another worker runs
`Delete(1)` and `AddOrUpdate(5)`, then `Delete(3)` removes the entry of 5 and
keeps 3. -/
theorem check_then_act_interleavings :
    ((NewList : IdList Nat).Get 7).1 = -1 ∧
    (((NewList : IdList Nat).addOrUpdateCommit (-1) 7 (some 1)).bind
        (fun l => l.addOrUpdateCommit (-1) 7 (some 2))).map IdList.GetIds = some [7, 7] ∧
    (({ items := [{ id := 1, item := some 1 }, { id := 2, item := some 2 }] } :
        IdList Nat).Get 2).1 = 1 ∧
    ((({ items := [{ id := 1, item := some 1 }, { id := 2, item := some 2 }] } :
        IdList Nat).Delete 1).1.deleteCommit 1) = none ∧
    (({ items := [{ id := 1, item := some 1 }, { id := 2, item := some 2 },
                  { id := 3, item := some 3 }] } : IdList Nat).Get 3).1 = 2 ∧
    (((({ items := [{ id := 1, item := some 1 }, { id := 2, item := some 2 },
                    { id := 3, item := some 3 }] } : IdList Nat).Delete 1).1.AddOrUpdate 5
        (some 5)).deleteCommit 2).map IdList.GetIds = some [3, 2] := by
  decide

/-! ### Delete and the other ids -/

theorem Delete_other (l : IdList α) (id id' : Int) (hn : l.GetIds.Nodup) (hne : id' ≠ id) :
    (l.Delete id).1.Exist id' = l.Exist id' ∧
    ((l.Delete id).1.Get id').2 = (l.Get id').2 := by
  obtain ⟨hn', _, hmem, _⟩ := Delete_items l id hn
  by_cases hid' : id' ∈ l.GetIds
  · obtain ⟨c, hc, hcid⟩ := (mem_GetIds_iff l id').mp hid'
    have hc' : c ∈ (l.Delete id).1.items := (hmem c).mpr ⟨hc, by rw [hcid]; exact hne⟩
    constructor
    · rw [(Exist_iff l id').mpr hid',
        (Exist_iff _ id').mpr ((mem_GetIds_iff _ id').mpr ⟨c, hc', hcid⟩)]
    · rw [← hcid, Get_snd_of_mem _ c hn' hc', Get_snd_of_mem l c hn hc]
  · have hid2 : id' ∉ (l.Delete id).1.GetIds := by
      intro h
      obtain ⟨c, hc, hcid⟩ := (mem_GetIds_iff _ id').mp h
      exact hid' ((mem_GetIds_iff l id').mpr ⟨c, ((hmem c).mp hc).1, hcid⟩)
    constructor
    · have h1 : l.Exist id' = false := by
        rw [Bool.eq_false_iff]; exact fun h => hid' ((Exist_iff l id').mp h)
      have h2 : (l.Delete id).1.Exist id' = false := by
        rw [Bool.eq_false_iff]; exact fun h => hid2 ((Exist_iff _ id').mp h)
      rw [h1, h2]
    · rw [Get_of_not_mem l id' hid', Get_of_not_mem _ id' hid2]

end containers

namespace socket

open connection containers

/-! ### Send and the list -/

/-- C16: on a server satisfying the server invariant, for a registered id with
handle `h`, `Send` returns the error of the write of the framed payload.  When the
write succeeds, the list is unchanged and the trace grows by the write only.  When
it fails with `e` on a UDP server, `Send` returns `e`, afterwards `Exist(id)` is
false, the entries are the old ones without that of `id`, every other id has the
presence and handle it had, and the trace grows by the failed write and exactly
one `Disconnected(id)`.  When it fails on a TCP, TLS or Unix server, the list is
unchanged and the trace grows by the failed write only. -/
theorem Send_udp_cleanup (env : Env) (s : Server) (id : Int) (msg : List Byte)
    (hwf : s.WF) (hid : s.clients.Exist id = true) :
    ∃ h s', (s.clients.Get id).2 = some h ∧
      s.Send env id msg = some (s', env.write s.trace h (msg ++ [0x00])) ∧
      (env.write s.trace h (msg ++ [0x00]) = none →
        s'.clients = s.clients ∧ s'.trace = s.trace ++ [.write h (msg ++ [0x00]) none]) ∧
      (∀ e, env.write s.trace h (msg ++ [0x00]) = some e → s.proto = Udp →
        s'.clients.Exist id = false ∧
        (∀ c, c ∈ s'.clients.items ↔ (c ∈ s.clients.items ∧ c.id ≠ id)) ∧
        (∀ id', id' ≠ id → s'.clients.Exist id' = s.clients.Exist id' ∧
          (s'.clients.Get id').2 = (s.clients.Get id').2) ∧
        s'.trace = s.trace ++ [.write h (msg ++ [0x00]) (some e), .disconnected id]) ∧
      (∀ e, env.write s.trace h (msg ++ [0x00]) = some e →
        (s.proto = Tcp ∨ s.proto = Tls ∨ s.proto = Unix) →
        s'.clients = s.clients ∧
        s'.trace = s.trace ++ [.write h (msg ++ [0x00]) (some e)]) := by
  obtain ⟨h, hget, hok⟩ := WF_handle s hwf id ((Exist_iff s.clients id).mp hid)
  cases hw : env.write s.trace h (AppendDelimeter msg) with
  | none =>
    have hw' : env.write s.trace h (msg ++ [0x00]) = none := hw
    refine ⟨h, { s with trace := s.trace ++ [.write h (AppendDelimeter msg) none] },
      hget, ?_, ?_, ?_, ?_⟩
    · rw [hw']
      exact Send_ok env s id msg h hget hok hw
    · intro _
      exact ⟨rfl, rfl⟩
    · intro e he
      rw [hw'] at he
      cases he
    · intro e he
      rw [hw'] at he
      cases he
  | some e =>
    have hw' : env.write s.trace h (msg ++ [0x00]) = some e := hw
    refine ⟨h,
      { s with
          clients := if s.proto = Udp then (s.clients.Delete id).1 else s.clients,
          trace := s.trace ++ .write h (AppendDelimeter msg) (some e) ::
            (if s.proto = Udp then [.disconnected id] else []) },
      hget, ?_, ?_, ?_, ?_⟩
    · rw [hw']
      exact Send_fail env s id msg h e hget hok hw
    · intro hnone
      rw [hw'] at hnone
      cases hnone
    · intro e' he' hudp
      rw [hw'] at he'
      cases he'
      obtain ⟨_, hnot, hmem, _⟩ := Delete_items s.clients id hwf.1
      simp only [hudp, if_true]
      refine ⟨?_, hmem, fun id' hne => Delete_other s.clients id id' hwf.1 hne, rfl⟩
      rw [Bool.eq_false_iff]
      exact fun hex => hnot ((Exist_iff _ id).mp hex)
    · intro e' he' hstream
      rw [hw'] at he'
      cases he'
      have hnu : s.proto ≠ Udp := by
        intro hu
        rw [hu] at hstream
        exact Udp_not_stream hstream
      refine ⟨by simp [hnu], ?_⟩
      simp only [hnu, if_false]
      rfl

/-- Witness for C16: the write to the address registered under 21 fails. -/
theorem Send_udp_cleanup_witness :
    udpPeers.WF ∧ udpPeers.clients.Exist 21 = true ∧
    (∃ s', udpPeers.Send firstUnreachable 21 [104, 105] =
      some (s', some "network is unreachable")) ∧
    udpPeers.Send firstUnreachable 21 [104, 105] =
      some ({ udpPeers with
                clients := { items := [{ id := 22, item := some (.addr 2) }] },
                trace := udpPeers.trace ++
                  [.write (.addr 1) [104, 105, 0] (some "network is unreachable"),
                   .disconnected 21] },
            some "network is unreachable") := by
  refine ⟨by decide, by decide, ?_, by decide⟩
  obtain ⟨h, s', hget, hsend, _⟩ :=
    Send_udp_cleanup firstUnreachable udpPeers 21 [104, 105] (by decide) (by decide)
  have hh : h = .addr 1 := by
    have h0 : (udpPeers.clients.Get 21).2 = some (Handle.addr 1) := by decide
    rw [h0] at hget
    exact (Option.some.inj hget).symm
  subst hh
  exact ⟨s', hsend⟩

/-! ### ListenAndServe and Stop -/

theorem stopLoop_eq (ids : List Int) (s s2 : Server) (h : stopLoop ids s = some s2) :
    s2 = s := by
  induction ids with
  | nil =>
    rw [stopLoop] at h
    exact (Option.some.inj h).symm
  | cons id rest ih =>
    rw [stopLoop] at h
    split at h
    · cases h
    · exact ih h
    · cases h

/-- `Stop` never assigns `s.listener`. -/
theorem Stop_listener (s s2 : Server) (h : s.Stop = some s2) : s2.listener = s.listener := by
  unfold Server.Stop at h
  simp only at h
  split at h
  · cases h
  · rename_i s1 hs1
    have h1 : s1.listener = s.listener ∧ s1.proto = s.proto := by
      split at hs1
      · split at hs1
        · have := stopLoop_eq _ _ _ hs1
          rw [this]
          exact ⟨rfl, rfl⟩
        · cases hs1
      · cases hs1
        exact ⟨rfl, rfl⟩
    split at h
    · split at h
      · cases h
        exact h1.1
      · cases h
    · cases h
      exact h1.1

/-- With `s.listener` set, `ListenAndServe` returns "listener already up"; it binds
nothing and starts nothing (it has reset `interrupted` before the test). -/
theorem ListenAndServe_listener_up (s : Server) (resolveErr bindErr : Option Error)
    (hl : s.listener = true) :
    s.ListenAndServe resolveErr bindErr =
      ({ s with interrupted := false }, some "listener already up") := by
  unfold Server.ListenAndServe
  simp [hl]

/-- The stream protocols are guarded: after a successful `ListenAndServe` on a TCP,
TLS or Unix server, a second call returns "listener already up" without binding or
starting a worker, while listening and after `Stop()`. -/
theorem stream_ListenAndServe_twice (s s1 : Server) (r b r' b' : Option Error)
    (hp : s.proto = Tcp ∨ s.proto = Tls ∨ s.proto = Unix)
    (h1 : s.ListenAndServe r b = (s1, none)) :
    s1.ListenAndServe r' b' = ({ s1 with interrupted := false }, some "listener already up") ∧
    (∀ s2, s1.Stop = some s2 →
      s2.ListenAndServe r' b' =
        ({ s2 with interrupted := false }, some "listener already up")) := by
  have hl : s1.listener = true := by
    unfold Server.ListenAndServe at h1
    simp only at h1
    by_cases hup : s.listener = true
    · simp [hup] at h1
    · have hup' : s.listener = false := by simpa using hup
      simp only [hup', Bool.false_eq_true, if_false] at h1
      have hnu : s.proto ≠ Udp := by
        intro hu
        rw [hu] at hp
        exact Udp_not_stream hp
      by_cases ht : s.proto = Tcp ∨ s.proto = Tls
      · rw [if_pos ht] at h1
        cases b with
        | none =>
          simp only at h1
          rw [← (Prod.mk.inj h1).1]
          rfl
        | some e => simp at h1
      · rw [if_neg ht, if_neg hnu] at h1
        have hx : s.proto = Unix := by
          rcases hp with h | h | h
          · exact absurd (Or.inl h) ht
          · exact absurd (Or.inr h) ht
          · exact h
        rw [if_pos hx] at h1
        cases r with
        | some e => simp at h1
        | none =>
          cases b with
          | none =>
            simp only at h1
            rw [← (Prod.mk.inj h1).1]
          | some e => simp at h1
  refine ⟨ListenAndServe_listener_up s1 r' b' hl, ?_⟩
  intro s2 hs2
  exact ListenAndServe_listener_up s2 r' b' ((Stop_listener s1 s2 hs2).trans hl)

/-- C17 fails on the code for UDP: `ListenAndServe` tests `s.listener` only, and a
UDP server keeps its socket in `s.udpListener`.  After a first successful
`ListenAndServe` on a UDP server, a second call while listening calls
`net.ListenUDP` again and returns its result (an error of the bind, or `nil` after
starting a second worker), and a call after `Stop()` binds again and starts a
worker; "listener already up" is never returned. -/
theorem Udp_ListenAndServe_not_guarded :
    (NewServer Udp).ListenAndServe none none = (udpUp, none) ∧
    udpUp = { proto := Udp, interrupted := false, listener := false, udpListener := true,
              clients := NewList, trace := [.bind Udp none, .spawn .listenUdp] } ∧
    udpUp.ListenAndServe none none =
      ({ udpUp with trace := [.bind Udp none, .spawn .listenUdp,
                              .bind Udp none, .spawn .listenUdp] }, none) ∧
    udpUp.ListenAndServe none (some "address already in use") =
      ({ udpUp with trace := [.bind Udp none, .spawn .listenUdp,
                              .bind Udp (some "address already in use")] },
       some "address already in use") ∧
    udpUp.Stop =
      some { udpUp with interrupted := true,
                        trace := [.bind Udp none, .spawn .listenUdp, .udpClose] } ∧
    ({ udpUp with interrupted := true,
                  trace := [.bind Udp none, .spawn .listenUdp, .udpClose] } :
        Server).ListenAndServe none none =
      ({ udpUp with trace := [.bind Udp none, .spawn .listenUdp, .udpClose,
                              .bind Udp none, .spawn .listenUdp] }, none) := by
  decide

theorem stopLoop_conns (ids : List Int) (s : Server) (hwf : s.WF)
    (hp : s.proto = Tcp ∨ s.proto = Tls ∨ s.proto = Unix)
    (hin : ∀ id ∈ ids, id ∈ s.clients.GetIds) : stopLoop ids s = some s := by
  induction ids with
  | nil => rfl
  | cons id rest ih =>
    obtain ⟨h, hget, hok⟩ := WF_handle s hwf id (hin id (List.mem_cons_self _ _))
    rw [stopLoop, hget]
    cases h with
    | conn c => exact ih (fun j hj => hin j (List.mem_cons_of_mem _ hj))
    | addr a =>
      have hu : s.proto = Udp := by
        have : s.proto = Udp ∧ s.udpListener = true := by
          simpa [Server.handleOk] using hok
        exact this.1
      rw [hu] at hp
      exact absurd hp Udp_not_stream

/-- On every listening TCP, TLS or Unix server satisfying the server invariant,
`Stop` closes the listener, calls `Close` on no registered connection, and empties
the list. -/
theorem Stop_stream (s : Server) (hwf : s.WF)
    (hp : s.proto = Tcp ∨ s.proto = Tls ∨ s.proto = Unix) (hl : s.listener = true) :
    s.Stop = some { s with interrupted := true, trace := s.trace ++ [.listenerClose],
                           clients := NewList } := by
  have hnu : s.proto ≠ Udp := by
    intro hu
    rw [hu] at hp
    exact Udp_not_stream hp
  have hwf' : ({ s with interrupted := true, trace := s.trace ++ [.listenerClose] } :
      Server).WF := by
    obtain ⟨h1, h2⟩ := hwf
    refine ⟨h1, ?_⟩
    have hfun : ({ s with interrupted := true, trace := s.trace ++ [.listenerClose] } :
        Server).handleOk = s.handleOk := by
      funext c
      simp [Server.handleOk]
    simpa [hfun] using h2
  have hloop := stopLoop_conns s.clients.GetIds
    { s with interrupted := true, trace := s.trace ++ [.listenerClose] } hwf' hp (fun _ h => h)
  rw [hl] at hloop
  unfold Server.Stop
  simp only [hp, hl, if_true, hloop, hnu, if_false]
  rfl

/-- C18 fails on the code: on a listening TCP server with three registered
connections `Stop` empties the list but calls `Close` on the listener only; the
test `if err != nil` before `conn.Close()` is true only when the id has no
connection. -/
theorem Stop_closes_no_peer :
    listeningPeers.clients.items =
      [{ id := 11, item := some (.conn 1) }, { id := 12, item := some (.conn 2) },
       { id := 13, item := some (.conn 3) }] ∧
    listeningPeers.listener = true ∧
    listeningPeers.Stop =
      some { proto := Tcp, interrupted := true, listener := true, udpListener := false,
             clients := { items := [] },
             trace := [.bind Tcp none, .spawn .listenTcp, .listenerClose] } := by
  decide

end socket

namespace containers

variable {α : Type}

/-! ### Delete, position by position -/

theorem getElem?_after {β : Type} (a : List β) (x : β) (t : List β) (m : Nat) :
    (a ++ x :: t)[a.length + 1 + m]? = t[m]? := by
  induction a with
  | nil =>
    have h : ([] : List β).length + 1 + m = m + 1 := by simp; omega
    rw [h]
    simp
  | cons c rest ih =>
    have h : (c :: rest).length + 1 + m = (rest.length + 1 + m) + 1 := by simp; omega
    rw [h, List.cons_append, List.getElem?_cons_succ]
    exact ih

theorem getElem?_before {β : Type} (a t u : List β) (j : Nat) (hj : j < a.length) :
    (a ++ t)[j]? = (a ++ u)[j]? := by
  rw [List.getElem?_append_left hj, List.getElem?_append_left hj]

/-- C26: for every list state of length `n` in which `id` is stored first at index
`i`, after `Delete(id)` the slice has length `n-1`, every position `j < i` holds
what it held, position `i` (when `i < n-1`) holds what was last, every position
`j` with `i < j < n-1` holds what it held, and the handle returned is the one
stored at `i`; when `id` is absent, `Delete` returns nil and changes nothing. -/
theorem Delete_swap_remove (l : IdList α) (id : Int) :
    (id ∈ l.GetIds →
      ∃ i : Nat, (l.Get id).1 = (i : Int) ∧ i < l.items.length ∧
        (l.Delete id).1.items.length + 1 = l.items.length ∧
        (∀ j, j < i → (l.Delete id).1.items[j]? = l.items[j]?) ∧
        (i < l.items.length - 1 →
          (l.Delete id).1.items[i]? = l.items[l.items.length - 1]?) ∧
        (∀ j, i < j → j < l.items.length - 1 →
          (l.Delete id).1.items[j]? = l.items[j]?) ∧
        (l.items[i]?).map (fun e => e.item) = some (l.Delete id).2) ∧
    (id ∉ l.GetIds → l.Delete id = (l, none)) := by
  refine ⟨?_, Delete_absent l id⟩
  intro hid
  rcases Delete_cases l id with ⟨hn, _⟩ | ⟨a, e, hx, he, ha, hd⟩ | ⟨a, e, b, z, hx, he, ha, hd⟩
  · exact absurd hid hn
  · refine ⟨a.length, ?_, ?_, ?_, ?_, ?_, ?_, ?_⟩
    · rw [Get_of_split l id a e [] hx he ha]
    · rw [hx]; simp
    · rw [hd, hx]; simp
    · intro j hj
      rw [hd, hx, List.getElem?_append_left hj]
    · intro hlt
      rw [hx] at hlt
      simp at hlt
    · intro j h1 h2
      rw [hx] at h2
      simp at h2
      omega
    · rw [hd, hx, getElem?_split a e []]
      rfl
  · have hassoc : a ++ e :: (b ++ [z]) = (a ++ e :: b) ++ [z] := by simp
    have hlen : l.items.length - 1 = a.length + 1 + b.length := by
      rw [hx]; simp; omega
    have hlast : l.items[l.items.length - 1]? = some z := by
      rw [← List.getLast?_eq_getElem?, hx, hassoc, List.getLast?_append]
      simp
    refine ⟨a.length, ?_, ?_, ?_, ?_, ?_, ?_, ?_⟩
    · rw [Get_of_split l id a e (b ++ [z]) hx he ha]
    · rw [hx]; simp
    · rw [hd, hx]; simp; omega
    · intro j hj
      rw [hd, hx]
      exact getElem?_before a _ _ j hj
    · intro _
      rw [hd, hlast]
      exact getElem?_split a z b
    · intro j h1 h2
      rw [hlen] at h2
      obtain ⟨m, rfl⟩ : ∃ m, j = a.length + 1 + m := ⟨j - (a.length + 1), by omega⟩
      have hm : m < b.length := by omega
      rw [hd, hx]
      show (a ++ z :: b)[a.length + 1 + m]? = (a ++ e :: (b ++ [z]))[a.length + 1 + m]?
      rw [getElem?_after, getElem?_after, List.getElem?_append_left hm]
    · rw [hd, hx, getElem?_split a e (b ++ [z])]
      rfl

end containers

namespace socket

open connection containers

/-! ### One datagram in the UDP read loop -/

/-- C27: on a UDP server that is reading, a datagram of `n` bytes with
`1 <= n <= 1024` is registered, announced with `Connected(id)` and delivered with
`Received(id, first n-1 bytes)`, whatever its last byte is, and the loop goes on
with the next read; a datagram of 0 bytes is registered and announced with
`Connected(id)`, then the loop fails at runtime without calling `Received`. -/
theorem listenUdp_drops_last_byte (s : Server) (id : Int) (a : Nat) (d : List Byte)
    (rest : List (Int × Nat × List Byte))
    (hi : s.interrupted = false) (hl : s.udpListener = true) :
    (1 ≤ d.length → d.length ≤ 1024 →
      s.listenUdp ((id, a, d) :: rest) =
        listenUdpLoop rest
          { s.registerAddr id a with
              trace := s.trace ++ [.connected id, .received id (d.take (d.length - 1))] }) ∧
    s.listenUdp ((id, a, []) :: rest) =
      .failed { s.registerAddr id a with trace := s.trace ++ [.connected id] } := by
  constructor
  · intro h1 h2
    have hmin : min d.length 1024 = d.length := Nat.min_eq_left h2
    unfold Server.listenUdp
    rw [if_neg (by simp [hi]), if_pos hl, listenUdpLoop]
    simp only [hmin]
    have hn : ¬ ((d.length : Int) - 1 < 0) := by omega
    have htake : ((d.length : Int) - 1).toNat = d.length - 1 := by omega
    rw [if_neg hn, htake]
    simp [Server.registerAddr, List.append_assoc]
  · unfold Server.listenUdp
    rw [if_neg (by simp [hi]), if_pos hl, listenUdpLoop]
    rfl

/-- Witness for C27: the datagram "hi!" without sentinel loses its last byte. -/
theorem listenUdp_drops_last_byte_witness :
    udpUp.interrupted = false ∧ udpUp.udpListener = true ∧
    udpUp.listenUdp [(7, 1, [104, 105, 33])] =
      .done { udpUp with
                clients := { items := [{ id := 7, item := some (.addr 1) }] },
                trace := udpUp.trace ++ [.connected 7, .received 7 [104, 105]] } ∧
    udpUp.listenUdp [(7, 1, [])] =
      .failed { udpUp with
                  clients := { items := [{ id := 7, item := some (.addr 1) }] },
                  trace := udpUp.trace ++ [.connected 7] } :=
  ⟨by decide, by decide,
    (listenUdp_drops_last_byte udpUp 7 1 [104, 105, 33] [] (by decide) (by decide)).1
      (by decide) (by decide),
    (listenUdp_drops_last_byte udpUp 7 1 [] [] (by decide) (by decide)).2⟩

end socket

namespace connection

/-! ### The channel-backed handler -/

/-- C21: for every id and payload `m`, with non-nil channels `Connected(id)` sends
exactly `Event{id, CONNECTED}` on the event channel and nothing on the message
channel, `Disconnected(id)` sends exactly `Event{id, DISCONNECTED}` on the event
channel and nothing on the message channel, and `Received(id, m)` sends exactly
`Message{id, m}` on the message channel and nothing on the event channel; when the
channel a call would use is nil, the call sends nothing on either channel. -/
theorem EventsToChannel_forwards (e2c : EventsToChannel) (id : Int) (m : List Byte)
    (qe : List Event) (qm : List Message) :
    (({ e2c with eventChannel := some qe } : EventsToChannel).Connected id).eventChannel =
        some (qe ++ [{ Id := id, EventType := 1 }]) ∧
    (({ e2c with eventChannel := some qe } : EventsToChannel).Connected id).messageChannel =
        e2c.messageChannel ∧
    (({ e2c with eventChannel := some qe } : EventsToChannel).Disconnected id).eventChannel =
        some (qe ++ [{ Id := id, EventType := 0 }]) ∧
    (({ e2c with eventChannel := some qe } : EventsToChannel).Disconnected id).messageChannel =
        e2c.messageChannel ∧
    (({ e2c with messageChannel := some qm } : EventsToChannel).Received id m).messageChannel =
        some (qm ++ [{ Id := id, Content := m }]) ∧
    (({ e2c with messageChannel := some qm } : EventsToChannel).Received id m).eventChannel =
        e2c.eventChannel ∧
    (({ e2c with eventChannel := none } : EventsToChannel).Connected id).eventChannel = none ∧
    (({ e2c with eventChannel := none } : EventsToChannel).Connected id).messageChannel =
        e2c.messageChannel ∧
    (({ e2c with eventChannel := none } : EventsToChannel).Disconnected id).eventChannel =
        none ∧
    (({ e2c with eventChannel := none } : EventsToChannel).Disconnected id).messageChannel =
        e2c.messageChannel ∧
    (({ e2c with messageChannel := none } : EventsToChannel).Received id m).messageChannel =
        none ∧
    (({ e2c with messageChannel := none } : EventsToChannel).Received id m).eventChannel =
        e2c.eventChannel :=
  ⟨rfl, rfl, rfl, rfl, rfl, rfl, rfl, rfl, rfl, rfl, rfl, rfl⟩

end connection

namespace logger

/-! ### Level filtering -/

theorem logMessage_upto_Error (env : Sink) (lg : Logger) (M : LogLevel)
    (module logText : String) (hM : M ≤ LevelError) :
    logMessage env lg M module logText =
      if M ≥ lg.logLevel then
        ({ lg with
             lastTimeStamp := env.now,
             printed := lg.printed ++
               ["[" ++ logLevelToString M ++ "]\t" ++ env.now ++ "\t" ++
                 env.upper module ++ " - " ++ logText] },
         .returned (env.println lg.printed
           ("[" ++ logLevelToString M ++ "]\t" ++ env.now ++ "\t" ++
             env.upper module ++ " - " ++ logText)))
      else (lg, .returned none) := by
  have hn : ¬ (M > LevelError) := not_lt.mpr hM
  unfold logMessage
  by_cases h : M ≥ lg.logLevel
  · simp only [if_pos h, formatLog, if_neg hn]
  · simp only [if_neg h, if_neg hn]

/-- C22: for every configured level `L` (any value of `logLevel`) and each of the
five functions `Fine`, `Debug`, `Info`, `Warn`, `Error` with its level `M`: when
`M >= L` the call passes exactly one line to `println` and returns what `println`
returns (`nil` when the sink succeeds); when `M < L` it passes nothing and returns
`nil`.  `SetLogLevel` only ever configures one of the eight levels. -/
theorem log_level_filtering (env : Sink) (lg : Logger) (module logText : String) :
    (∀ p ∈ calls env,
      p.2 lg module logText =
        if p.1 ≥ lg.logLevel then
          ({ lg with
               lastTimeStamp := env.now,
               printed := lg.printed ++
                 ["[" ++ logLevelToString p.1 ++ "]\t" ++ env.now ++ "\t" ++
                   env.upper module ++ " - " ++ logText] },
           .returned (env.println lg.printed
             ("[" ++ logLevelToString p.1 ++ "]\t" ++ env.now ++ "\t" ++
               env.upper module ++ " - " ++ logText)))
        else (lg, .returned none)) ∧
    (∀ level, 0 ≤ (SetLogLevel env lg level).logLevel ∧
      (SetLogLevel env lg level).logLevel ≤ 7) := by
  constructor
  · intro p hp
    simp only [calls, List.mem_cons, List.mem_singleton, List.not_mem_nil, or_false] at hp
    rcases hp with rfl | rfl | rfl | rfl | rfl
    · exact logMessage_upto_Error env lg LevelFine module logText (by decide)
    · exact logMessage_upto_Error env lg LevelDebug module logText (by decide)
    · exact logMessage_upto_Error env lg LevelInfo module logText (by decide)
    · exact logMessage_upto_Error env lg LevelWarn module logText (by decide)
    · exact logMessage_upto_Error env lg LevelError module logText (by decide)
  · intro level
    unfold SetLogLevel
    simp only
    split_ifs <;>
      simp [LevelFine, LevelDebug, LevelInfo, LevelWarn, LevelError, LevelFatal, LevelPanic,
        LevelNone]

/-- The checks of `TestFine` and `TestError` on the embedding: at level "debug"
`Fine` prints nothing, at "fine" it prints one line; at "fatal" `Error` prints
nothing, at "error" it prints one line. -/
theorem TestFine_TestError_replay :
    (Fine testSink (SetLogLevel testSink ⟨2, "", []⟩ "debug") "TestModule"
      "message: fine").1.printed = [] ∧
    (Fine testSink (SetLogLevel testSink ⟨2, "", []⟩ "fine") "TestModule"
      "message: fine").1.printed =
      ["[FINE]\t2024-01-01 00:00:00.000000\tTESTMODULE - message: fine"] ∧
    (Error testSink (SetLogLevel testSink ⟨2, "", []⟩ "fatal") "TestModule"
      "message: error").1.printed = [] ∧
    (Error testSink (SetLogLevel testSink ⟨2, "", []⟩ "error") "TestModule"
      "message: error") =
      (⟨4, "2024-01-01 00:00:00.000000",
        ["[ERROR]\t2024-01-01 00:00:00.000000\tTESTMODULE - message: error"]⟩,
       .returned none) := by
  decide

end logger

namespace ui

/-! ### Port validation -/

/-- C23: for every input on which `strconv.Atoi` succeeds with value `p`,
`ValidateParseTcpUdpPort` returns no error exactly when `1 <= p <= 65535`, and then
the port is `p`; every `p <= 0` and every `p >= 65536` gives "out of range"; every
input on which `Atoi` fails gives the error of `Atoi`.  `ValidateTcpUdpPort`
returns the same error. -/
theorem port_validation (input : String) :
    (∀ p, Atoi input = (p, none) →
      ((ValidateParseTcpUdpPort input).2 = none ↔ (1 ≤ p ∧ p ≤ 65535)) ∧
      (1 ≤ p ∧ p ≤ 65535 → ((ValidateParseTcpUdpPort input).1 : Int) = p) ∧
      (p ≤ 0 ∨ 65536 ≤ p → (ValidateParseTcpUdpPort input).2 = some "out of range")) ∧
    (∀ e, (Atoi input).2 = some e → ValidateParseTcpUdpPort input = (0, some e)) ∧
    ValidateTcpUdpPort input = (ValidateParseTcpUdpPort input).2 := by
  refine ⟨?_, ?_, rfl⟩
  · intro p hp
    unfold ValidateParseTcpUdpPort
    rw [hp]
    simp only
    have hport : ((p % 65536).toNat : Int) = p % 65536 :=
      Int.toNat_of_nonneg (Int.emod_nonneg p (by decide))
    rw [hport]
    by_cases hr : 1 ≤ p ∧ p ≤ 65535
    · have hmod : p % 65536 = p := Int.emod_eq_of_lt (by omega) (by omega)
      have hcond : ¬ (p ≠ p % 65536 ∨ p < 1) := by
        rw [hmod]
        omega
      rw [if_neg hcond]
      refine ⟨⟨fun _ => hr, fun _ => rfl⟩, fun _ => ?_, fun h => by omega⟩
      show ((p % 65536).toNat : Int) = p
      rw [hport, hmod]
    · have hcond : p ≠ p % 65536 ∨ p < 1 := by
        by_cases h1 : p < 1
        · exact Or.inr h1
        · left
          have h2 : p % 65536 < 65536 := Int.emod_lt_of_pos p (by decide)
          omega
      rw [if_pos hcond]
      refine ⟨⟨fun h => by simp at h, fun h => absurd h hr⟩, fun h => absurd h hr, fun _ => rfl⟩
  · intro e he
    unfold ValidateParseTcpUdpPort
    cases hA : Atoi input with
    | mk v err =>
      rw [hA] at he
      simp only at he
      subst he
      rfl

/-- The checks of `TestUiValidatorsValidateTcpUdpPort` and some more on the
embedding: 65535 and 1 are valid; 65536, 0, -1, 65537 (1 modulo 2^16), "http" and
the empty string are not. -/
theorem port_validation_replay :
    ValidateTcpUdpPort "65535" = none ∧ ValidateParseTcpUdpPort "65535" = (65535, none) ∧
    ValidateParseTcpUdpPort "1" = (1, none) ∧
    ValidateTcpUdpPort "65536" = some "out of range" ∧
    ValidateTcpUdpPort "0" = some "out of range" ∧
    ValidateTcpUdpPort "-1" = some "out of range" ∧
    ValidateTcpUdpPort "65537" = some "out of range" ∧
    ValidateTcpUdpPort "http" = some "strconv.Atoi: parsing \"http\": invalid syntax" ∧
    ValidateTcpUdpPort "" = some "strconv.Atoi: parsing \"\": invalid syntax" := by
  decide

/-! ### Subnet masks -/

theorem bits8_length (part : Int) : (bits8 part).length = 8 := by
  simp [bits8]

set_option maxRecDepth 100000 in
/-- The list `bits8` is the binary form: read as a binary number it gives the octet back. -/
theorem bits8_value : ∀ n : Fin 256,
    (bits8 (n.val : Int)).foldl (fun acc b => 2 * acc + (if b then 1 else 0)) 0 = n.val := by
  decide

theorem scanBits_append (x y : List Bool) (z : Bool) :
    scanBits (x ++ y) z = (scanBits x z).bind (scanBits y) := by
  induction x generalizing z with
  | nil => simp [scanBits]
  | cons b rest ih =>
    cases b with
    | true =>
      cases z with
      | true => simp [scanBits]
      | false => simpa [scanBits] using ih false
    | false => simpa [scanBits] using ih true

/-- After a zero, only zeros are accepted. -/
theorem scanBits_true_iff (l : List Bool) :
    (scanBits l true).isSome = true ↔ l = List.replicate l.length false := by
  induction l with
  | nil => simp [scanBits]
  | cons b rest ih =>
    cases b with
    | true => simp [scanBits, List.replicate_succ]
    | false => simpa [scanBits, List.replicate_succ] using ih

/-- Before any zero, a run of ones followed by a run of zeros is accepted, and
nothing else. -/
theorem scanBits_false_iff (l : List Bool) :
    (scanBits l false).isSome = true ↔
      ∃ k, k ≤ l.length ∧ l = List.replicate k true ++ List.replicate (l.length - k) false := by
  induction l with
  | nil =>
    simp [scanBits]
  | cons b rest ih =>
    cases b with
    | true =>
      have hstep : scanBits (true :: rest) false = scanBits rest false := by simp [scanBits]
      rw [hstep, ih]
      constructor
      · rintro ⟨k, hk, hl⟩
        refine ⟨k + 1, by simpa using hk, ?_⟩
        have hsub : (true :: rest).length - (k + 1) = rest.length - k := by simp
        rw [hsub, List.replicate_succ, List.cons_append, ← hl]
      · rintro ⟨k, hk, hl⟩
        cases k with
        | zero =>
          simp [List.replicate_succ] at hl
        | succ k =>
          have hsub : (true :: rest).length - (k + 1) = rest.length - k := by simp
          rw [hsub, List.replicate_succ, List.cons_append] at hl
          exact ⟨k, by simpa using hk, (List.cons.inj hl).2⟩
    | false =>
      have hstep : scanBits (false :: rest) false = scanBits rest true := by simp [scanBits]
      rw [hstep, scanBits_true_iff]
      constructor
      · intro hrest
        refine ⟨0, Nat.zero_le _, ?_⟩
        simp only [List.replicate_zero, List.nil_append, Nat.sub_zero, List.length_cons,
          List.replicate_succ]
        rw [← hrest]
      · rintro ⟨k, hk, hl⟩
        cases k with
        | zero =>
          simp only [List.replicate_zero, List.nil_append, Nat.sub_zero, List.length_cons,
            List.replicate_succ] at hl
          exact (List.cons.inj hl).2
        | succ k =>
          simp [List.replicate_succ] at hl

/-- An input part is a valid octet when `Atoi` succeeds on it with a value in
`0..255`; `maskLoop` returns no error only when every part is. -/
theorem maskLoop_none_valid (parts : List (List Char)) (z : Bool)
    (h : maskLoop parts z = none) :
    ∀ p ∈ parts, (Atoi (String.mk p)).2 = none ∧
      0 ≤ (Atoi (String.mk p)).1 ∧ (Atoi (String.mk p)).1 ≤ 255 := by
  induction parts generalizing z with
  | nil => simp
  | cons q rest ih =>
    rw [maskLoop] at h
    cases hA : Atoi (String.mk q) with
    | mk v err =>
      rw [hA] at h
      cases err with
      | some e => simp at h
      | none =>
        simp only at h
        by_cases hr : v < 0 ∨ v > 255
        · rw [if_pos hr] at h
          simp at h
        · rw [if_neg hr] at h
          cases hs : scanBits (bits8 v) z with
          | none => rw [hs] at h; simp at h
          | some z1 =>
            rw [hs] at h
            intro p hp
            rcases List.mem_cons.mp hp with rfl | hp
            · rw [hA]
              exact ⟨rfl, by omega, by omega⟩
            · exact ih z1 h p hp

theorem maskLoop_step (q : List Char) (rest : List (List Char)) (z : Bool) (v : Int)
    (hA : Atoi (String.mk q) = (v, none)) (h0 : 0 ≤ v) (h1 : v ≤ 255) :
    maskLoop (q :: rest) z =
      match scanBits (bits8 v) z with
      | none => some "invalid IPv4 subnet mask"
      | some z1 => maskLoop rest z1 := by
  rw [maskLoop, hA]
  simp only
  rw [if_neg (by omega)]

/-- On four valid octets the two loops accept exactly when the 32 bits, scanned in
one go, are accepted. -/
theorem maskLoop_four (sa sb sc sd : List Char) (a b c d : Int)
    (ha : Atoi (String.mk sa) = (a, none)) (hb : Atoi (String.mk sb) = (b, none))
    (hc : Atoi (String.mk sc) = (c, none)) (hd : Atoi (String.mk sd) = (d, none))
    (ra : 0 ≤ a ∧ a ≤ 255) (rb : 0 ≤ b ∧ b ≤ 255) (rc : 0 ≤ c ∧ c ≤ 255)
    (rd : 0 ≤ d ∧ d ≤ 255) :
    maskLoop [sa, sb, sc, sd] false = none ↔
      (scanBits (bits8 a ++ bits8 b ++ bits8 c ++ bits8 d) false).isSome = true := by
  rw [maskLoop_step sa _ false a ha ra.1 ra.2, scanBits_append, scanBits_append,
    scanBits_append]
  cases h1 : scanBits (bits8 a) false with
  | none => simp
  | some z1 =>
    simp only [Option.some_bind]
    rw [maskLoop_step sb _ z1 b hb rb.1 rb.2]
    cases h2 : scanBits (bits8 b) z1 with
    | none => simp
    | some z2 =>
      simp only [Option.some_bind]
      rw [maskLoop_step sc _ z2 c hc rc.1 rc.2]
      cases h3 : scanBits (bits8 c) z2 with
      | none => simp
      | some z3 =>
        simp only [Option.some_bind]
        rw [maskLoop_step sd _ z3 d hd rd.1 rd.2]
        cases h4 : scanBits (bits8 d) z3 with
        | none => simp
        | some z4 => simp [maskLoop]

/-- C24: an input that does not split at the dots into exactly four parts gets an
error; so does an input with a part on which `Atoi` fails or whose value is
outside `0..255`; and for an input of four parts with values `a`, `b`, `c`, `d` in
`0..255`, `ValidateIPv4SubnetMask` returns no error exactly when the 32 bits of the
four octets, most significant first, are `k` ones followed by `32-k` zeros for
some `0 <= k <= 32`. -/
theorem subnet_mask_validation (input : String) :
    ((splitDots input.data).length ≠ 4 →
      ValidateIPv4SubnetMask input = some "IPv4 format. <111.222.123.212>") ∧
    ((∃ p ∈ splitDots input.data, (Atoi (String.mk p)).2 ≠ none ∨
        (Atoi (String.mk p)).1 < 0 ∨ (Atoi (String.mk p)).1 > 255) →
      ValidateIPv4SubnetMask input ≠ none) ∧
    (∀ sa sb sc sd a b c d, splitDots input.data = [sa, sb, sc, sd] →
      Atoi (String.mk sa) = (a, none) → Atoi (String.mk sb) = (b, none) →
      Atoi (String.mk sc) = (c, none) → Atoi (String.mk sd) = (d, none) →
      (0 ≤ a ∧ a ≤ 255) → (0 ≤ b ∧ b ≤ 255) → (0 ≤ c ∧ c ≤ 255) → (0 ≤ d ∧ d ≤ 255) →
      (ValidateIPv4SubnetMask input = none ↔
        ∃ k, k ≤ 32 ∧ bits8 a ++ bits8 b ++ bits8 c ++ bits8 d =
          List.replicate k true ++ List.replicate (32 - k) false)) := by
  refine ⟨?_, ?_, ?_⟩
  · intro h
    unfold ValidateIPv4SubnetMask
    simp only
    rw [if_pos h]
  · rintro ⟨p, hp, hbad⟩ hnone
    unfold ValidateIPv4SubnetMask at hnone
    simp only at hnone
    by_cases hlen : (splitDots input.data).length ≠ 4
    · rw [if_pos hlen] at hnone
      simp at hnone
    · rw [if_neg hlen] at hnone
      have hv := maskLoop_none_valid _ false hnone p hp
      rcases hbad with h | h | h
      · exact h hv.1
      · omega
      · omega
  · intro sa sb sc sd a b c d hsplit ha hb hc hd ra rb rc rd
    unfold ValidateIPv4SubnetMask
    simp only
    rw [hsplit, if_neg (by simp), maskLoop_four sa sb sc sd a b c d ha hb hc hd ra rb rc rd,
      scanBits_false_iff]
    have hlen : (bits8 a ++ bits8 b ++ bits8 c ++ bits8 d).length = 32 := by
      simp [bits8_length]
    rw [hlen]

/-- The checks of `TestUiValidatorsIPv4SubnetMask` and some more on the embedding. -/
theorem subnet_mask_replay :
    ValidateIPv4SubnetMask "255.255.0.0" = none ∧
    ValidateIPv4SubnetMask "255.0.255.0" = some "invalid IPv4 subnet mask" ∧
    ValidateIPv4SubnetMask "0.0.0.0" = none ∧
    ValidateIPv4SubnetMask "255.255.255.255" = none ∧
    ValidateIPv4SubnetMask "255.255.254.0" = none ∧
    ValidateIPv4SubnetMask "255.255.253.0" = some "invalid IPv4 subnet mask" ∧
    ValidateIPv4SubnetMask "255.255.0" = some "IPv4 format. <111.222.123.212>" ∧
    ValidateIPv4SubnetMask "255.255.256.0" = some "IPv4 octet out of range 0 .. 255" ∧
    ValidateIPv4SubnetMask "255.255.x.0" = some "IPv4 octet out of range 0 .. 255" := by
  decide

end ui

namespace crypto

/-! ### Random integers -/

theorem wrapInt_of_range (w : Nat) (x : Int) (hw : 0 < w)
    (h0 : -(2 : Int) ^ (w - 1) ≤ x) (h1 : x < (2 : Int) ^ (w - 1)) : wrapInt w x = x := by
  unfold wrapInt
  have hpow : (2 : Int) ^ w = 2 * (2 : Int) ^ (w - 1) := by
    obtain ⟨v, rfl⟩ : ∃ v, w = v + 1 := ⟨w - 1, by omega⟩
    simp [pow_succ, mul_comm]
  have hmod : (x + (2 : Int) ^ (w - 1)) % (2 : Int) ^ w = x + (2 : Int) ^ (w - 1) :=
    Int.emod_eq_of_lt (by omega) (by omega)
  rw [hmod]
  omega

/-- Within the 64-bit range, for `min < max` less than `2^53` apart, `RandInt64`
returns `min` plus the value drawn in `[0, max - min)`. -/
theorem RandInt64_eq (raw : Nat) (min max : Int)
    (hmin : -(2 : Int) ^ 63 ≤ min) (hmax : max < (2 : Int) ^ 63) (hlt : min < max)
    (hd : max - min < (2 : Int) ^ 53) :
    RandInt64 (some raw) min max = some (min + (raw : Int) % (max - min), none) ∧
    min ≤ min + (raw : Int) % (max - min) ∧ min + (raw : Int) % (max - min) < max := by
  have hpos : 0 < max - min := by omega
  have h53 : (2 : Int) ^ 53 = 9007199254740992 := by norm_num
  have h63 : (2 : Int) ^ 63 = 9223372036854775808 := by norm_num
  have hwrap : wrapInt 64 (max - min) = max - min :=
    wrapInt_of_range 64 _ (by decide) (by norm_num; omega) (by norm_num; omega)
  have hnat : ((max - min).natAbs : Int) = max - min := Int.natAbs_of_nonneg (le_of_lt hpos)
  have hlt53 : (max - min).natAbs < 2 ^ 53 := by
    have : ((max - min).natAbs : Int) < (2 : Int) ^ 53 := by rw [hnat]; exact hd
    exact_mod_cast this
  have hround : roundFloat64 (max - min).natAbs = (max - min).natAbs := by
    unfold roundFloat64
    rw [if_pos hlt53]
  have hlt63 : (max - min).natAbs < 2 ^ 63 := lt_trans hlt53 (by norm_num)
  have hr0 : 0 ≤ (raw : Int) % (max - min) := Int.emod_nonneg _ (by omega)
  have hr1 : (raw : Int) % (max - min) < max - min := Int.emod_lt_of_pos _ hpos
  refine ⟨?_, by omega, by omega⟩
  unfold RandInt64
  simp only [hwrap, hround, hlt63, if_true, hnat]
  rw [if_neg (by omega)]
  rw [wrapInt_of_range 64 _ (by decide) (by norm_num; omega) (by norm_num; omega)]

/-- C25: for `min < max` in the 64-bit range with `max - min` below `2^53` and every
value the random source gives, `RandInt64` does not fail, returns no error and a
value `r` with `min <= r < max`; the same holds for `RandInt32`, `RandInt16` and
`RandInt8` when `min` and `max` are in the range of the narrower type; so
`RandInt16(0, 17000)` is at least 0 and below 17000. -/
theorem RandInt_in_range (raw : Nat) (min max : Int)
    (hmin : -(2 : Int) ^ 63 ≤ min) (hmax : max < (2 : Int) ^ 63) (hlt : min < max)
    (hd : max - min < (2 : Int) ^ 53) :
    (∃ r, RandInt64 (some raw) min max = some (r, none) ∧ min ≤ r ∧ r < max) ∧
    (-(2 : Int) ^ 31 ≤ min → max < (2 : Int) ^ 31 →
      ∃ r, RandInt32 (some raw) min max = some (r, none) ∧ min ≤ r ∧ r < max) ∧
    (-(2 : Int) ^ 15 ≤ min → max < (2 : Int) ^ 15 →
      ∃ r, RandInt16 (some raw) min max = some (r, none) ∧ min ≤ r ∧ r < max) ∧
    (-(2 : Int) ^ 7 ≤ min → max < (2 : Int) ^ 7 →
      ∃ r, RandInt8 (some raw) min max = some (r, none) ∧ min ≤ r ∧ r < max) ∧
    (∃ r, RandInt16 (some raw) 0 17000 = some (r, none) ∧ 0 ≤ r ∧ r < 17000) := by
  obtain ⟨heq, h0, h1⟩ := RandInt64_eq raw min max hmin hmax hlt hd
  refine ⟨⟨_, heq, h0, h1⟩, ?_, ?_, ?_, ?_⟩
  · intro hl hu
    refine ⟨min + (raw : Int) % (max - min), ?_, h0, h1⟩
    unfold RandInt32
    rw [heq]
    simp only
    rw [wrapInt_of_range 32 _ (by decide) (by norm_num at hl ⊢; omega)
      (by norm_num at hu ⊢; omega)]
  · intro hl hu
    refine ⟨min + (raw : Int) % (max - min), ?_, h0, h1⟩
    unfold RandInt16
    rw [heq]
    simp only
    rw [wrapInt_of_range 16 _ (by decide) (by norm_num at hl ⊢; omega)
      (by norm_num at hu ⊢; omega)]
  · intro hl hu
    refine ⟨min + (raw : Int) % (max - min), ?_, h0, h1⟩
    unfold RandInt8
    rw [heq]
    simp only
    rw [wrapInt_of_range 8 _ (by decide) (by norm_num at hl ⊢; omega)
      (by norm_num at hu ⊢; omega)]
  · obtain ⟨heq', h0', h1'⟩ := RandInt64_eq raw 0 17000 (by norm_num) (by norm_num)
      (by norm_num) (by norm_num)
    refine ⟨0 + (raw : Int) % (17000 - 0), ?_, h0', h1'⟩
    unfold RandInt16
    rw [heq']
    simp only
    rw [wrapInt_of_range 16 _ (by decide) (by norm_num; omega) (by norm_num; omega)]

/-- Witness for C25: `RandInt64(-5, 10)` when the source gives 1234567. -/
theorem RandInt_in_range_witness :
    -(2 : Int) ^ 63 ≤ -5 ∧ (10 : Int) < (2 : Int) ^ 63 ∧ (-5 : Int) < 10 ∧
    (10 : Int) - (-5) < (2 : Int) ^ 53 ∧
    (∃ r, RandInt64 (some 1234567) (-5) 10 = some (r, none) ∧ -5 ≤ r ∧ r < 10) :=
  ⟨by decide, by decide, by decide, by decide,
    (RandInt_in_range 1234567 (-5) 10 (by decide) (by decide) (by decide) (by decide)).1⟩

/-! ### Random characters -/

/-- In the range of `int8`, `RandInt8` fails exactly when the source fails, and
otherwise returns no error and `min` plus the value drawn in `[0, max - min)`. -/
theorem RandInt8_eq (src : Option Nat) (min max : Int)
    (hmin : -128 ≤ min) (hmax : max ≤ 127) (hlt : min < max) :
    RandInt8 src min max =
      match src with
      | none => none
      | some raw => some (min + (raw : Int) % (max - min), none) := by
  cases src with
  | none =>
    have h : RandInt64 none min max = none := by
      unfold RandInt64
      simp
    unfold RandInt8
    rw [h]
  | some raw =>
    obtain ⟨heq, h0, h1⟩ := RandInt64_eq raw min max (by norm_num; omega) (by norm_num; omega)
      hlt (by norm_num; omega)
    unfold RandInt8
    rw [heq]
    simp only
    rw [wrapInt_of_range 8 _ (by decide) (by norm_num; omega) (by norm_num; omega)]

theorem byte_of_int8 (b : Int) (h0 : 0 ≤ b) (h1 : b ≤ 127) :
    ((Fin.ofNat (b % 256).toNat : Byte).val : Int) = b := by
  have hmod : b % 256 = b := Int.emod_eq_of_lt h0 (by omega)
  rw [hmod]
  show (((b.toNat % 256 : Nat)) : Int) = b
  omega

/-- The loop of `RandCharacters` and `RandString`: whatever it returns without
failing has no error, `k` bytes, each in `[start, stop)`; and it returns when the
`k` draws it makes succeed. -/
theorem fillLoop_spec (src : Nat → Option Nat) (start stop : Int)
    (h0 : 0 ≤ start) (hlt : start < stop) (h1 : stop ≤ 127) (k : Nat) :
    ∀ i,
      (∀ bytes err, fillLoop src start stop i k = some (bytes, err) →
        err = none ∧ bytes.length = k ∧
        ∀ b ∈ bytes, start ≤ (b.val : Int) ∧ (b.val : Int) < stop) ∧
      ((∀ j, j < k → (src (i + j)).isSome = true) →
        ∃ bytes, fillLoop src start stop i k = some (bytes, none)) := by
  induction k with
  | zero =>
    intro i
    refine ⟨?_, fun _ => ⟨[], rfl⟩⟩
    intro bytes err h
    rw [fillLoop] at h
    cases h
    simp
  | succ k ih =>
    intro i
    have hstep := RandInt8_eq (src i) start stop (by omega) h1 hlt
    constructor
    · intro bytes err h
      rw [fillLoop, hstep] at h
      cases hs : src i with
      | none => rw [hs] at h; simp at h
      | some raw =>
        rw [hs] at h
        simp only at h
        cases hrec : fillLoop src start stop (i + 1) k with
        | none => rw [hrec] at h; simp at h
        | some res =>
          obtain ⟨bs, e⟩ := res
          obtain ⟨he, hl, hb⟩ := (ih (i + 1)).1 bs e hrec
          subst he
          rw [hrec] at h
          simp only [Option.some.injEq, Prod.mk.injEq] at h
          obtain ⟨hbytes, herr⟩ := h
          subst hbytes
          refine ⟨herr.symm, by simp [hl], ?_⟩
          intro b hbm
          rcases List.mem_cons.mp hbm with rfl | hbm
          · have hr0 : 0 ≤ (raw : Int) % (stop - start) := Int.emod_nonneg _ (by omega)
            have hr1 : (raw : Int) % (stop - start) < stop - start :=
              Int.emod_lt_of_pos _ (by omega)
            rw [byte_of_int8 _ (by omega) (by omega)]
            constructor <;> omega
          · exact hb b hbm
    · intro hall
      obtain ⟨raw, hs⟩ := Option.isSome_iff_exists.mp (hall 0 (Nat.succ_pos k))
      rw [Nat.add_zero] at hs
      obtain ⟨bs, hrec⟩ := (ih (i + 1)).2 (fun j hj => by
        have := hall (j + 1) (by omega)
        rwa [show i + (j + 1) = i + 1 + j by omega] at this)
      refine ⟨Fin.ofNat ((start + (raw : Int) % (stop - start)) % 256).toNat :: bs, ?_⟩
      rw [fillLoop, hstep, hs]
      simp only
      rw [hrec]

/-- C28: for every `length >= 0` and every random source, whatever
`RandCharacters(length, capital)` returns without failing has no error and exactly
`length` bytes, each in `'a'..'y'` (97..121) when `capital` is false and in
`'A'..'Y'` (65..89) when it is true, and whatever `RandString(length)` returns has
exactly `length` bytes, each in `'!'..'}'` (33..125); both return when the
`length` draws succeed.  `'z'` (122), `'Z'` (90) and `'~'` (126) never occur. -/
theorem Rand_never_last_character (src : Nat → Option Nat) (length : Int) (capital : Bool)
    (hlen : 0 ≤ length) :
    (∀ bytes err, RandCharacters src length capital = some (bytes, err) →
      err = none ∧ (bytes.length : Int) = length ∧
      ∀ b ∈ bytes, if capital then 65 ≤ b.val ∧ b.val ≤ 89 else 97 ≤ b.val ∧ b.val ≤ 121) ∧
    (∀ bytes err, RandString src length = some (bytes, err) →
      err = none ∧ (bytes.length : Int) = length ∧ ∀ b ∈ bytes, 33 ≤ b.val ∧ b.val ≤ 125) ∧
    ((∀ j : Nat, (j : Int) < length → (src j).isSome = true) →
      (∃ bytes, RandCharacters src length capital = some (bytes, none)) ∧
      (∃ bytes, RandString src length = some (bytes, none))) := by
  have hnn : ¬ (length < 0) := by omega
  have hcast : ((length.toNat : Nat) : Int) = length := Int.toNat_of_nonneg hlen
  refine ⟨?_, ?_, ?_⟩
  · intro bytes err h
    unfold RandCharacters at h
    rw [if_neg hnn] at h
    cases capital with
    | true =>
      simp only [if_true] at h
      obtain ⟨he, hl, hb⟩ :=
        (fillLoop_spec src 65 90 (by decide) (by decide) (by decide) length.toNat 0).1
          bytes err h
      refine ⟨he, by rw [hl, hcast], ?_⟩
      intro b hbm
      have := hb b hbm
      simp only [if_true]
      omega
    | false =>
      simp only [Bool.false_eq_true, if_false] at h
      obtain ⟨he, hl, hb⟩ :=
        (fillLoop_spec src 97 122 (by decide) (by decide) (by decide) length.toNat 0).1
          bytes err h
      refine ⟨he, by rw [hl, hcast], ?_⟩
      intro b hbm
      have := hb b hbm
      simp only [Bool.false_eq_true, if_false]
      omega
  · intro bytes err h
    unfold RandString at h
    rw [if_neg hnn] at h
    obtain ⟨he, hl, hb⟩ :=
      (fillLoop_spec src 33 126 (by decide) (by decide) (by decide) length.toNat 0).1
        bytes err h
    refine ⟨he, by rw [hl, hcast], ?_⟩
    intro b hbm
    have := hb b hbm
    omega
  · intro hall
    have hall' : ∀ j, j < length.toNat → (src (0 + j)).isSome = true := by
      intro j hj
      rw [Nat.zero_add]
      exact hall j (by omega)
    constructor
    · unfold RandCharacters
      rw [if_neg hnn]
      cases capital with
      | true =>
        simp only [if_true]
        exact (fillLoop_spec src 65 90 (by decide) (by decide) (by decide) length.toNat 0).2
          hall'
      | false =>
        simp only [Bool.false_eq_true, if_false]
        exact (fillLoop_spec src 97 122 (by decide) (by decide) (by decide) length.toNat 0).2
          hall'
    · unfold RandString
      rw [if_neg hnn]
      exact (fillLoop_spec src 33 126 (by decide) (by decide) (by decide) length.toNat 0).2
        hall'

/-- Witness for C28: three characters from the draws 24, 25, 26: `'y'`, then (25
being the width of the interval) `'a'`, `'b'`; no draw gives `'z'`. -/
theorem Rand_never_last_character_witness :
    (0 : Int) ≤ 3 ∧
    RandCharacters (fun i => some (24 + i)) 3 false = some ([121, 97, 98], none) ∧
    (∀ b ∈ ([121, 97, 98] : List Byte), 97 ≤ b.val ∧ b.val ≤ 121) := by
  have hw := (Rand_never_last_character (fun i => some (24 + i)) 3 false (by decide)).1
    [121, 97, 98] none (by decide)
  exact ⟨by decide, by decide, fun b hb => by simpa using hw.2.2 b hb⟩

end crypto
